import Mathlib

/-!
# rastertotspl: CUPS raster to TSPL2 filter

A shallow embedding of `rastertotspl.c` (the filter) and `debug_bitmap.c`
(the bitmap debug utility), followed by theorems about them.

Conventions of the embedding

* `unsigned int` values are natural numbers; every `unsigned int` operation
  that can exceed 32 bits is reduced modulo `UINT_MOD`.
* A C buffer is a `List Nat` whose length is the allocated size.  Reading or
  writing outside the allocation is undefined behaviour in C and is `none`
  here, so every function that touches a buffer returns an `Option`.
* `stdout` is the list of bytes written, `stderr` the list of messages.
-/

set_option autoImplicit false

namespace Rastertotspl

/-! ## Data model -/

/-- Modulus of `unsigned int` arithmetic (32 bits). -/
def UINT_MOD : Nat := 4294967296

/-- The fields of `cups_page_header2_t` that the filter consults; all of them
are `unsigned` in `cups/raster.h`. -/
structure cups_page_header2_t where
  cupsWidth : Nat
  cupsHeight : Nat
  HWResolution : Nat × Nat
  cupsBitsPerPixel : Nat
  cupsBytesPerLine : Nat
deriving DecidableEq

/-- Every field of the header fits an `unsigned int`. -/
def header_in_range (header : cups_page_header2_t) : Prop :=
  header.cupsWidth < UINT_MOD ∧ header.cupsHeight < UINT_MOD ∧
  header.HWResolution.1 < UINT_MOD ∧ header.HWResolution.2 < UINT_MOD ∧
  header.cupsBitsPerPixel < UINT_MOD ∧ header.cupsBytesPerLine < UINT_MOD

instance (header : cups_page_header2_t) : Decidable (header_in_range header) := by
  unfold header_in_range; infer_instance

/-! ## Pixel decoding (`output_bitmap_data`, body of the `x` loop) -/

/-- The summing loop of the generic branch (rastertotspl.c:328-331):
`for (i = 0; i < bytes_per_pixel && (offset + i) < cupsBytesPerLine; i++)
sum += line_buffer[offset + i];`.  The first argument bounds the number of
iterations; the caller passes `bytes_per_pixel`, which the loop never exceeds. -/
def sum_loop (header : cups_page_header2_t) (line_buffer : List Nat)
    (offset bytes_per_pixel : Nat) : Nat → Nat → Nat → Option Nat
  | 0, _, sum => some sum
  | fuel + 1, i, sum =>
    if i < bytes_per_pixel ∧ (offset + i) % UINT_MOD < header.cupsBytesPerLine then
      match line_buffer[(offset + i) % UINT_MOD]? with
      | none => none
      | some v => sum_loop header line_buffer offset bytes_per_pixel fuel (i + 1)
          ((sum + v) % UINT_MOD)
    else some sum

/-- The value of `pixel` for column `x` (rastertotspl.c:285-335): `true` is
ink.  `none` when the C code reads outside `line_buffer`. -/
def decode_pixel (header : cups_page_header2_t) (line_buffer : List Nat) (x : Nat) :
    Option Bool :=
  if header.cupsBitsPerPixel = 1 then
    let src_byte := x / 8
    let src_bit := 7 - (x % 8)
    match line_buffer[src_byte]? with
    | none => none
    | some v =>
      let cups_pixel := (v >>> src_bit) &&& 1
      some (cups_pixel != 0)
  else if header.cupsBitsPerPixel = 8 then
    match line_buffer[x]? with
    | none => none
    | some gray_value => some (decide (gray_value < 128))
  else if header.cupsBitsPerPixel = 24 then
    let offset := (x * 3) % UINT_MOD
    if (offset + 2) % UINT_MOD < header.cupsBytesPerLine then
      match line_buffer[offset]?, line_buffer[(offset + 1) % UINT_MOD]?,
          line_buffer[(offset + 2) % UINT_MOD]? with
      | some r, some g, some b =>
        let luminance := (r * 299 + g * 587 + b * 114) % UINT_MOD / 1000
        some (decide (luminance < 128))
      | _, _, _ => none
    else some false
  else
    let bytes_per_pixel := header.cupsBitsPerPixel / 8
    if bytes_per_pixel > 0 then
      let offset := (x * bytes_per_pixel) % UINT_MOD
      match sum_loop header line_buffer offset bytes_per_pixel bytes_per_pixel 0 0 with
      | none => none
      | some sum =>
        let average := sum / bytes_per_pixel
        some (decide (average < 128))
    else some false

/-! ## Bit packing (`output_bitmap_data`, lines 279-342) -/

/-- The statement `bitmap_line[byte_pos] |= (1 << bit)` on an `unsigned char`
buffer; `none` when `byte_pos` is outside the buffer. -/
def set_bit (bitmap_line : List Nat) (byte_pos bit : Nat) : Option (List Nat) :=
  match bitmap_line[byte_pos]? with
  | none => none
  | some v => some (bitmap_line.set byte_pos ((v ||| (1 <<< bit)) % 256))

/-- One iteration of the `x` loop, with the pixel decision supplied by
`pixel_at`: compute `byte_pos` and `bit`, obtain `pixel`, set the bit if it is
ink. -/
def pack_step (pixel_at : Nat → Option Bool) (bitmap_line : List Nat) (x : Nat) :
    Option (List Nat) :=
  let byte_pos := x / 8
  let bit := 7 - (x % 8)
  match pixel_at x with
  | none => none
  | some pixel => if pixel then set_bit bitmap_line byte_pos bit else some bitmap_line

/-- The loop `for (x = ...; x < cupsWidth; x++)` with `n` iterations left. -/
def pixel_loop (pixel_at : Nat → Option Bool) : Nat → Nat → List Nat → Option (List Nat)
  | 0, _, bitmap_line => some bitmap_line
  | n + 1, x, bitmap_line =>
    match pack_step pixel_at bitmap_line x with
    | none => none
    | some next => pixel_loop pixel_at n (x + 1) next

/-- The packing step on its own: `memset(bitmap_line, 0, width_bytes)` followed
by the `x` loop over `width` pixels. -/
def pack_line (pixel_at : Nat → Option Bool) (width width_bytes : Nat) : Option (List Nat) :=
  pixel_loop pixel_at width 0 (List.replicate width_bytes 0)

/-- The value of `width_bytes = (header->cupsWidth + 7) / 8` in `unsigned int`
arithmetic (rastertotspl.c:254). -/
def width_bytes (header : cups_page_header2_t) : Nat :=
  (header.cupsWidth + 7) % UINT_MOD / 8

/-- The packed line produced for one scanline held in `line_buffer`
(rastertotspl.c:279-342). -/
def convert_line (header : cups_page_header2_t) (line_buffer : List Nat) : Option (List Nat) :=
  pack_line (decode_pixel header line_buffer) header.cupsWidth (width_bytes header)

/-! ## debug_bitmap.c -/

/-- The value of `pixel` in `print_visual_line` (debug_bitmap.c:25-27). -/
def visual_pixel (data : List Nat) (x : Nat) : Option Nat :=
  let byte_pos := x / 8
  let bit_pos := 7 - (x % 8)
  match data[byte_pos]? with
  | none => none
  | some v => some ((v >>> bit_pos) &&& 1)

/-- The characters printed by the loop of `print_visual_line` from column `x`
on, with `n` columns left. -/
def visual_loop (data : List Nat) : Nat → Nat → Option (List Char)
  | 0, _ => some []
  | n + 1, x =>
    match visual_pixel data x, visual_loop data n (x + 1) with
    | some pixel, some rest => some ((if pixel != 0 then '#' else '.') :: rest)
    | _, _ => none

/-- The text printed by `print_visual_line(data, width_pixels)`. -/
def print_visual_line (data : List Nat) (width_pixels : Nat) : Option (List Char) :=
  match visual_loop data width_pixels 0 with
  | none => none
  | some cs => some (cs ++ ['\n'])

/-! ## Doubles

`double` values are IEEE-754 binary64 numbers with round-to-nearest-even, the
arithmetic of every platform CUPS runs on.  A finite value is kept exactly as
a sign, a natural significand and a binary exponent.  Exponent overflow and
subnormal results are not modelled: the filter multiplies an `unsigned` by
25.4 and divides by an `unsigned`, which stays far inside the normal range.

IEEE-754 leaves the sign of the NaN that an invalid operation yields to the
processor.  The model follows x86-64 with glibc: the NaN of `0/0`, `0 * inf`
and `inf/inf` has its sign bit set, a NaN operand is passed on with its sign,
and `printf` writes the sign of a NaN. -/

/-- A double: the finite value `(-1)^neg * m * 2^e`, an infinity, or a NaN
with its sign bit. -/
inductive Dbl where
  | fin (neg : Bool) (m : Nat) (e : Int)
  | inf (neg : Bool)
  | nan (neg : Bool)
deriving DecidableEq

/-- The NaN that an invalid operation yields: sign bit set (x86-64). -/
def Dbl.invalid : Dbl := Dbl.nan true

/-- Number of binary digits of `n`, computed by halving (first argument: an
upper bound on the number of halvings). -/
def bit_length_aux : Nat → Nat → Nat
  | 0, _ => 0
  | fuel + 1, n => if n = 0 then 0 else bit_length_aux fuel (n / 2) + 1

/-- Number of binary digits of `n`: `2^(bit_length n - 1) ≤ n < 2^(bit_length n)`
for positive `n`. -/
def bit_length (n : Nat) : Nat := bit_length_aux n n

/-- The quotient `n / d` rounded to the nearest integer, ties to even. -/
def round_half_even (n d : Nat) : Nat :=
  let q := n / d
  let r := n % d
  if 2 * r < d then q else if d < 2 * r then q + 1 else q + q % 2

/-- The double nearest to `(-1)^neg * (n / d) * 2^e` (ties to even): the
quotient is scaled by a power of two `2^(-s)` into `[2^52, 2^53)` and rounded
to an integer significand. -/
def round_to_double (neg : Bool) (n d : Nat) (e : Int) : Dbl :=
  if n = 0 then Dbl.fin neg 0 0
  else
    let s1 : Int := (bit_length n : Int) - (bit_length d : Int) - 53
    let s : Int := if 2 ^ 53 * (d * 2 ^ s1.toNat) ≤ n * 2 ^ (-s1).toNat then s1 + 1 else s1
    Dbl.fin neg (round_half_even (n * 2 ^ (-s).toNat) (d * 2 ^ s.toNat)) (e + s)

/-- Conversion of an `unsigned int` to `double` (exact). -/
def Dbl.of_unsigned (n : Nat) : Dbl := Dbl.fin false n 0

/-- The product of two doubles. -/
def Dbl.mul : Dbl → Dbl → Dbl
  | Dbl.fin s1 m1 e1, Dbl.fin s2 m2 e2 => round_to_double (s1 != s2) (m1 * m2) 1 (e1 + e2)
  | Dbl.fin s1 m1 _, Dbl.inf s2 => if m1 = 0 then Dbl.invalid else Dbl.inf (s1 != s2)
  | Dbl.inf s1, Dbl.fin s2 m2 _ => if m2 = 0 then Dbl.invalid else Dbl.inf (s1 != s2)
  | Dbl.inf s1, Dbl.inf s2 => Dbl.inf (s1 != s2)
  | Dbl.nan s, _ => Dbl.nan s
  | _, Dbl.nan s => Dbl.nan s

/-- The quotient of two doubles; a finite value divided by zero is an
infinity, or a NaN when the dividend is zero as well. -/
def Dbl.div : Dbl → Dbl → Dbl
  | Dbl.fin s1 m1 e1, Dbl.fin s2 m2 e2 =>
    if m2 = 0 then (if m1 = 0 then Dbl.invalid else Dbl.inf (s1 != s2))
    else round_to_double (s1 != s2) m1 m2 (e1 - e2)
  | Dbl.fin s1 _ _, Dbl.inf s2 => Dbl.fin (s1 != s2) 0 0
  | Dbl.inf s1, Dbl.fin s2 _ _ => Dbl.inf (s1 != s2)
  | Dbl.inf _, Dbl.inf _ => Dbl.invalid
  | Dbl.nan s, _ => Dbl.nan s
  | _, Dbl.nan s => Dbl.nan s

/-- The comparison `v > 0` on doubles (false for a NaN). -/
def Dbl.gt_zero : Dbl → Bool
  | Dbl.fin neg m _ => !neg && decide (0 < m)
  | Dbl.inf neg => !neg
  | Dbl.nan _ => false

/-- Whether a double is a finite number. -/
def Dbl.is_finite : Dbl → Bool
  | Dbl.fin _ _ _ => true
  | _ => false

/-- The exact rational value of a finite double (0 for an infinity or NaN). -/
def Dbl.to_rat : Dbl → ℚ
  | Dbl.fin neg m e => (if neg then -1 else 1) * (m : ℚ) * (2 : ℚ) ^ e
  | _ => 0

/-- The magnitude `m * 2^e` in tenths, rounded to the nearest integer, ties to
even: the digits that `printf("%.1f", v)` prints. -/
def tenths (m : Nat) (e : Int) : Nat :=
  if 0 ≤ e then m * 2 ^ e.toNat * 10 else round_half_even (m * 10) (2 ^ (-e).toNat)

/-- The text of `printf("%.1f", v)`: the exact value rounded to one decimal,
ties to even; `inf` and `nan` for an infinity and a NaN, each after a `-` when
the sign bit is set (glibc). -/
def fmt_f1 : Dbl → String
  | Dbl.fin neg m e =>
    (if neg then "-" else "") ++ Nat.repr (tenths m e / 10) ++ "." ++
      Nat.repr (tenths m e % 10)
  | Dbl.inf neg => (if neg then "-" else "") ++ "inf"
  | Dbl.nan neg => (if neg then "-" else "") ++ "nan"

/-- The text of `printf("%d", v)`. -/
def fmt_d (v : Int) : String :=
  if v < 0 then "-" ++ Nat.repr v.natAbs else Nat.repr v.natAbs

/-- The text of `printf("%u", v)`. -/
def fmt_u (v : Nat) : String := Nat.repr v

/-! ## Constants and streams -/

def DEFAULT_DENSITY : Int := 8

def DEFAULT_SPEED : Int := 4

def DEFAULT_GAP : Int := 2

/-- The constant `25.4` as a double: `7149464408450662 * 2^-48`. -/
def MM_PER_INCH : Dbl := round_to_double false 254 10 0

/-- The bytes of an ASCII text. -/
def txt (s : String) : List Nat := s.toList.map Char.toNat

/-- What a piece of the filter writes: bytes to `output` and messages to
`stderr`. -/
structure Streams where
  output : List Nat
  stderr : List String
deriving DecidableEq

/-- Sequential composition of two pieces of output. -/
def Streams.append (a b : Streams) : Streams :=
  ⟨a.output ++ b.output, a.stderr ++ b.stderr⟩

/-- Whether a message on `stderr` is an error report. -/
def is_error (msg : String) : Bool := "ERROR:".toList.isPrefixOf msg.toList

/-- Whether some message on `stderr` is an error report. -/
def reports_error (s : Streams) : Bool := s.stderr.any is_error

/-! ## The raster source

`cupsRasterReadHeader2` and `cupsRasterReadPixels` belong to libcups.  The
filter sees them as a sequence of pages, each a header followed by the results
of the successive `cupsRasterReadPixels` calls made for it; once a page has no
further result the call returns 0. -/

/-- One call `cupsRasterReadPixels(ras, line_buffer, cupsBytesPerLine)`: the
count it returns and the contents of `line_buffer` after it. -/
structure pixel_read where
  count : Nat
  line_buffer : List Nat
deriving DecidableEq

/-- One page of the raster stream. -/
structure raster_page where
  header : cups_page_header2_t
  reads : List pixel_read
deriving DecidableEq

/-! ## Emitting commands -/

/-- The bytes written by `output_tspl_header` (rastertotspl.c:235-244). -/
def output_tspl_header (width_mm height_mm : Dbl) (density speed : Int) : List Nat :=
  txt ("SIZE " ++ fmt_f1 width_mm ++ " mm," ++ fmt_f1 height_mm ++ " mm\n") ++
  txt ("GAP " ++ fmt_d DEFAULT_GAP ++ " mm,0\n") ++
  txt ("DENSITY " ++ fmt_d density ++ "\n") ++
  txt ("SPEED " ++ fmt_d speed ++ "\n") ++
  txt "DIRECTION 1\n" ++
  txt "CLS\n"

/-- The scanline loop of `output_bitmap_data` (rastertotspl.c:268-346) with
`n` iterations left, about to process line `y`: the packed lines written, the
error message if the loop breaks, and the reads left over. -/
def scanline_loop (header : cups_page_header2_t) :
    Nat → Nat → List pixel_read → Option (Streams × List pixel_read)
  | 0, _, ras => some (⟨[], []⟩, ras)
  | _ + 1, y, [] => some (⟨[], ["ERROR: Unable to read line " ++ fmt_u y ++ "\n"]⟩, [])
  | n + 1, y, r :: ras =>
    if r.count < 1 then
      some (⟨[], ["ERROR: Unable to read line " ++ fmt_u y ++ "\n"]⟩, ras)
    else
      match convert_line header r.line_buffer with
      | none => none
      | some bitmap_line =>
        match scanline_loop header n (y + 1) ras with
        | none => none
        | some (s, left) => some (⟨bitmap_line ++ s.output, s.stderr⟩, left)

/-- The function `output_bitmap_data` (rastertotspl.c:246-350): the BITMAP
command header, the packed lines, the terminating newline.  Both `malloc`
calls are taken to succeed. -/
def output_bitmap_data (header : cups_page_header2_t) (ras : List pixel_read) :
    Option (Streams × List pixel_read) :=
  match scanline_loop header header.cupsHeight 0 ras with
  | none => none
  | some (s, left) =>
    some (⟨txt ("BITMAP 0,0," ++ fmt_u (width_bytes header) ++ "," ++
              fmt_u header.cupsHeight ++ ",0,") ++ s.output ++ txt "\n",
           s.stderr⟩, left)

/-- The millimetres derived from a pixel count and a resolution:
`pixels * MM_PER_INCH / dpi` in double arithmetic (rastertotspl.c:199, 208). -/
def derived_mm (pixels dpi : Nat) : Dbl :=
  Dbl.div (Dbl.mul (Dbl.of_unsigned pixels) MM_PER_INCH) (Dbl.of_unsigned dpi)

/-- The value of `width_mm` (rastertotspl.c:192-200). -/
def resolve_width_mm (header : cups_page_header2_t) (label_width : Dbl) : Dbl :=
  if label_width.gt_zero then label_width
  else derived_mm header.cupsWidth header.HWResolution.1

/-- The value of `height_mm` (rastertotspl.c:202-209). -/
def resolve_height_mm (header : cups_page_header2_t) (label_height : Dbl) : Dbl :=
  if label_height.gt_zero then label_height
  else derived_mm header.cupsHeight header.HWResolution.2

/-- What the body of the page loop writes before it calls
`output_bitmap_data` (rastertotspl.c:181-214): the debug messages and the
label set-up commands. -/
def page_prologue (header : cups_page_header2_t) (page : Int) (density speed : Int)
    (label_width label_height : Dbl) : Streams :=
  let width_mm := resolve_width_mm header label_width
  let height_mm := resolve_height_mm header label_height
  ⟨output_tspl_header width_mm height_mm density speed,
   ["DEBUG: Processing page " ++ fmt_d page ++ "\n",
    "DEBUG: Page size: " ++ fmt_u header.cupsWidth ++ "x" ++ fmt_u header.cupsHeight ++
      " pixels\n",
    "DEBUG: Resolution: " ++ fmt_u header.HWResolution.1 ++ "x" ++
      fmt_u header.HWResolution.2 ++ " dpi\n",
    "DEBUG: Bits per pixel: " ++ fmt_u header.cupsBitsPerPixel ++ "\n",
    "DEBUG: Bytes per line: " ++ fmt_u header.cupsBytesPerLine ++ "\n",
    "DEBUG: Label size: " ++ fmt_f1 width_mm ++ " x " ++ fmt_f1 height_mm ++ " mm\n"]⟩

/-- One iteration of the page loop of `convert_raster_to_tspl`
(rastertotspl.c:181-231) for the page numbered `page`. -/
def convert_page (p : raster_page) (page : Int) (density speed : Int)
    (label_width label_height : Dbl) : Option Streams :=
  match output_bitmap_data p.header p.reads with
  | none => none
  | some (bitmap, _) =>
    some ((page_prologue p.header page density speed label_width label_height).append
      (bitmap.append ⟨txt "PRINT 1\n", []⟩))

/-- The page loop of `convert_raster_to_tspl` after `page` pages. -/
def page_loop (density speed : Int) (label_width label_height : Dbl) :
    Int → List raster_page → Option Streams
  | _, [] => some ⟨[], []⟩
  | page, p :: ras =>
    match convert_page p (page + 1) density speed label_width label_height,
        page_loop density speed label_width label_height (page + 1) ras with
    | some s, some rest => some (s.append rest)
    | _, _ => none

/-- The function `convert_raster_to_tspl` (rastertotspl.c:170-233). -/
def convert_raster_to_tspl (ras : List raster_page) (density speed : Int)
    (label_width label_height : Dbl) : Option Streams :=
  page_loop density speed label_width label_height 0 ras

/-! ## Reading packed lines -/

/-- Bit `x` of a packed line counted MSB first from byte 0: bit `7 - x % 8` of
byte `x / 8`; `false` beyond the end of the line. -/
def line_bit (packed : List Nat) (x : Nat) : Bool :=
  (packed[x / 8]?.getD 0).testBit (7 - x % 8)

/-- The character `print_visual_line` prints for an ink decision. -/
def visual_char (ink : Bool) : Char := if ink then '#' else '.'

/-! ## Options (`main` and `parse_options`)

`cupsGetOption`, `atoi` and `strtod` belong to libcups and libc; they are
parameters of the embedding.  `cupsGetOption name` is the value found for
`name` in the option array, `none` for `NULL`. -/

/-- The job parameters that `main` holds and passes by pointer to
`parse_options`. -/
structure job_params where
  density : Int
  speed : Int
  label_width : Dbl
  label_height : Dbl
  rotate : Int
deriving DecidableEq

/-- The initial values of the job parameters in `main`
(rastertotspl.c:45-49). -/
def main_defaults : job_params :=
  ⟨DEFAULT_DENSITY, DEFAULT_SPEED, Dbl.fin false 0 0, Dbl.fin false 0 0, 0⟩

/-- The function `parse_options` (rastertotspl.c:114-168): the parameters
after the call and the warnings written to `stderr`. -/
def parse_options (cupsGetOption : String → Option String) (atoi : String → Int)
    (strtod : String → Dbl) (p : job_params) : job_params × List String :=
  let r1 : job_params × List String :=
    match cupsGetOption "density" with
    | some val =>
      let d := atoi val
      if d ≥ 1 ∧ d ≤ 15 then ({ p with density := d }, [])
      else (p, ["WARNING: Invalid density " ++ fmt_d d ++ ", using default " ++
                  fmt_d DEFAULT_DENSITY ++ "\n"])
    | none => (p, [])
  let r2 : job_params × List String :=
    match cupsGetOption "speed" with
    | some val =>
      let s := atoi val
      if s ≥ 1 ∧ s ≤ 6 then ({ r1.1 with speed := s }, r1.2)
      else (r1.1, r1.2 ++ ["WARNING: Invalid speed " ++ fmt_d s ++ ", using default " ++
                  fmt_d DEFAULT_SPEED ++ "\n"])
    | none => r1
  let p3 : job_params :=
    match cupsGetOption "label-width" with
    | some val => { r2.1 with label_width := strtod val }
    | none => r2.1
  let p4 : job_params :=
    match cupsGetOption "label-height" with
    | some val => { p3 with label_height := strtod val }
    | none => p3
  let p5 : job_params :=
    match cupsGetOption "rotate" with
    | some val => { p4 with rotate := atoi val }
    | none => p4
  (p5, r2.2)

/-- The two lines of `print_usage` that document the ranges
(rastertotspl.c:107-108). -/
def usage_ranges : List String :=
  ["  -o density=<1-15>     Set print density (default: " ++ fmt_d DEFAULT_DENSITY ++ ")\n",
   "  -o speed=<1-6>        Set print speed (default: " ++ fmt_d DEFAULT_SPEED ++ ")\n"]

/-! ## debug_bitmap.c, `main` -/

/-- The inner loop of `main` in debug_bitmap.c (lines 48-56 and 77-84) for row
`y`, with `n` columns left from column `x`: set the bit of every column with
`(x / 2 + y / 2) % 2` non-zero. -/
def checker_loop (y : Nat) : Nat → Nat → List Nat → Option (List Nat)
  | 0, _, row => some row
  | n + 1, x, row =>
    let byte_pos := x / 8
    let bit_pos := 7 - (x % 8)
    if (x / 2 + y / 2) % 2 ≠ 0 then
      match set_bit row byte_pos bit_pos with
      | none => none
      | some next => checker_loop y n (x + 1) next
    else checker_loop y n (x + 1) row

/-- The contents of `line[3]` that `main` of debug_bitmap.c builds for row `y`
with `width = 24`. -/
def checker_line (y : Nat) : Option (List Nat) := checker_loop y 24 0 [0, 0, 0]

/-- The text of `printf("%02X", v)` for a byte. -/
def fmt_02X (v : Nat) : String :=
  String.mk [Nat.digitChar (v / 16 % 16) |>.toUpper, Nat.digitChar (v % 16) |>.toUpper]

/-- The rows `y, y + 1, ...` (`n` of them) printed as hex by the last loop of
`main` in debug_bitmap.c (lines 74-89). -/
def checker_hex : Nat → Nat → Option String
  | 0, _ => some ""
  | n + 1, y =>
    match checker_line y, checker_hex n (y + 1) with
    | some row, some rest => some (String.join (row.map fmt_02X) ++ rest)
    | _, _ => none

/-- The text that `main` of debug_bitmap.c prints from "TSPL BITMAP command
would be" on (lines 70-90), without the caption: the command header with
`width_bytes = (24 + 7) / 8` and `height = 8`, the rows in hex, a newline. -/
def debug_bitmap_command : Option String :=
  match checker_hex 8 0 with
  | none => none
  | some hex =>
    some ("BITMAP 0,0," ++ fmt_d ((24 + 7) / 8) ++ "," ++ fmt_d 8 ++ ",0," ++ hex ++ "\n")

/-! ## The command sequence in the words of the specification -/

/-- Following the specification (4.4 and 6): the bytes of one page, namely the
SIZE line, `GAP 2 mm,0`, DENSITY, SPEED, `DIRECTION 1`, `CLS`, the BITMAP header
with `widthBytes` and `heightPixels`, the packed lines with no separator, a
newline, `PRINT 1`; every command line ends with a newline. -/
def spec_page_output (width_mm height_mm : String) (density speed : Int)
    (widthBytes heightPixels : Nat) (packed_lines : List (List Nat)) : List Nat :=
  txt "SIZE " ++ txt width_mm ++ txt " mm," ++ txt height_mm ++ txt " mm\n" ++
  txt "GAP 2 mm,0\n" ++
  txt "DENSITY " ++ txt (fmt_d density) ++ txt "\n" ++
  txt "SPEED " ++ txt (fmt_d speed) ++ txt "\n" ++
  txt "DIRECTION 1\n" ++
  txt "CLS\n" ++
  txt "BITMAP 0,0," ++ txt (fmt_u widthBytes) ++ txt "," ++ txt (fmt_u heightPixels) ++
    txt ",0," ++
  packed_lines.flatten ++
  txt "\n" ++
  txt "PRINT 1\n"


/-! # Theorems -/

/-! ## Bit-level lemmas -/

theorem shift_and_one (v k : Nat) : (v >>> k) &&& 1 = if v.testBit k then 1 else 0 := by
  unfold Nat.testBit
  rw [Nat.and_comm, Nat.one_and_eq_mod_two]
  rcases Nat.mod_two_eq_zero_or_one (v >>> k) with h | h <;> simp [h]

theorem visual_pixel_eq (data : List Nat) (x : Nat) (h : x / 8 < data.length) :
    visual_pixel data x = some (if line_bit data x then 1 else 0) := by
  unfold visual_pixel line_bit
  simp only [List.getElem?_eq_getElem h, Option.getD_some, shift_and_one]

theorem set_bit_some (packed : List Nat) (byte_pos bit : Nat) (h : byte_pos < packed.length) :
    set_bit packed byte_pos bit
      = some (packed.set byte_pos ((packed[byte_pos] ||| 1 <<< bit) % 256)) := by
  simp [set_bit, List.getElem?_eq_getElem h]

theorem set_bit_none (packed : List Nat) (byte_pos bit : Nat) (h : packed.length ≤ byte_pos) :
    set_bit packed byte_pos bit = none := by
  simp [set_bit, List.getElem?_eq_none h]

theorem line_bit_set (packed : List Nat) (x y : Nat) (h : x / 8 < packed.length) :
    line_bit (packed.set (x / 8) ((packed[x / 8] ||| 1 <<< (7 - x % 8)) % 256)) y
      = (line_bit packed y || decide (y = x)) := by
  unfold line_bit
  by_cases hy : x / 8 = y / 8
  · have h256 : (256 : Nat) = 2 ^ 8 := by norm_num
    have hlt : 7 - y % 8 < 8 := by omega
    rw [← hy, List.getElem?_set_self h, List.getElem?_eq_getElem h]
    simp only [Option.getD_some, h256, Nat.testBit_mod_two_pow, Nat.testBit_or,
      Nat.one_shiftLeft, Nat.testBit_two_pow, hlt, decide_True, Bool.true_and]
    congr 1
    have : (7 - x % 8 = 7 - y % 8) ↔ (y = x) := by omega
    simp [this]
  · have hne : y ≠ x := by
      intro e; apply hy; rw [e]
    rw [List.getElem?_set_ne hy]
    simp [hne]

theorem line_bit_replicate_zero (n y : Nat) : line_bit (List.replicate n 0) y = false := by
  unfold line_bit
  rw [List.getElem?_replicate]
  split <;> simp

/-- The `x` loop sets exactly the bits of the columns it visits whose decision
is ink, and leaves every other bit of the line as it was. -/
theorem pixel_loop_spec (pixel_at : Nat → Option Bool) (f : Nat → Bool) :
    ∀ (n x : Nat) (packed : List Nat),
      (∀ i, x ≤ i → i < x + n → pixel_at i = some (f i)) →
      x + n ≤ 8 * packed.length →
      ∃ out, pixel_loop pixel_at n x packed = some out ∧ out.length = packed.length ∧
        ∀ y, line_bit out y = (line_bit packed y || (decide (x ≤ y ∧ y < x + n) && f y)) := by
  intro n
  induction n with
  | zero =>
    intro x packed _ _
    refine ⟨packed, rfl, rfl, ?_⟩
    intro y
    have : ¬ (x ≤ y ∧ y < x + 0) := by omega
    simp [this]
  | succ n ih =>
    intro x packed hp hlen
    have hx : x / 8 < packed.length := by omega
    have hpx := hp x (le_refl x) (by omega)
    cases hf : f x with
    | false =>
      have hstep : pack_step pixel_at packed x = some packed := by
        simp [pack_step, hpx, hf]
      obtain ⟨out, ho, hl, hb⟩ := ih (x + 1) packed
        (fun i h1 h2 => hp i (by omega) (by omega)) (by omega)
      refine ⟨out, ?_, hl, ?_⟩
      · simp [pixel_loop, hstep, ho]
      · intro y
        rw [hb y]
        by_cases hyx : y = x
        · subst hyx
          have : ¬ (y + 1 ≤ y ∧ y < y + 1 + n) := by omega
          simp [this, hf]
        · have : (x + 1 ≤ y ∧ y < x + 1 + n) ↔ (x ≤ y ∧ y < x + (n + 1)) := by omega
          simp [this]
    | true =>
      have hstep : pack_step pixel_at packed x
          = some (packed.set (x / 8) ((packed[x / 8] ||| 1 <<< (7 - x % 8)) % 256)) := by
        simp [pack_step, hpx, hf, set_bit_some packed (x / 8) (7 - x % 8) hx]
      obtain ⟨out, ho, hl, hb⟩ := ih (x + 1)
        (packed.set (x / 8) ((packed[x / 8] ||| 1 <<< (7 - x % 8)) % 256))
        (fun i h1 h2 => hp i (by omega) (by omega)) (by rw [List.length_set]; omega)
      refine ⟨out, ?_, ?_, ?_⟩
      · simp [pixel_loop, hstep, ho]
      · rw [hl, List.length_set]
      · intro y
        rw [hb y, line_bit_set packed x y hx]
        by_cases hyx : y = x
        · subst hyx
          have h1 : ¬ (y + 1 ≤ y ∧ y < y + 1 + n) := by omega
          have h2 : (y ≤ y ∧ y < y + (n + 1)) := by omega
          simp [h1, h2, hf]
        · have : (x + 1 ≤ y ∧ y < x + 1 + n) ↔ (x ≤ y ∧ y < x + (n + 1)) := by omega
          simp [this, hyx]

/-- The packing step: defined whenever the line has room for `width` pixels,
and then bit `y` of the result is the decision of pixel `y` for `y < width`
and 0 elsewhere. -/
theorem pack_line_spec (pixel_at : Nat → Option Bool) (f : Nat → Bool) (width wb : Nat)
    (hp : ∀ i, i < width → pixel_at i = some (f i)) (hw : width ≤ 8 * wb) :
    ∃ out, pack_line pixel_at width wb = some out ∧ out.length = wb ∧
      ∀ y, line_bit out y = (decide (y < width) && f y) := by
  obtain ⟨out, ho, hl, hb⟩ := pixel_loop_spec pixel_at f width 0 (List.replicate wb 0)
    (fun i _ h => hp i (by omega)) (by simp; omega)
  refine ⟨out, ho, by simpa using hl, ?_⟩
  intro y
  rw [hb y, line_bit_replicate_zero]
  simp

theorem visual_loop_spec (data : List Nat) (ds : List Bool)
    (hv : ∀ i (h : i < ds.length), visual_pixel data i = some (if ds[i] then 1 else 0)) :
    ∀ (n x : Nat), x + n = ds.length →
      visual_loop data n x = some ((ds.drop x).map visual_char) := by
  intro n
  induction n with
  | zero =>
    intro x hx
    have : ds.drop x = [] := List.drop_eq_nil_of_le (by omega)
    simp [visual_loop, this]
  | succ n ih =>
    intro x hx
    have hlt : x < ds.length := by omega
    have hd : ds.drop x = ds[x] :: ds.drop (x + 1) := List.drop_eq_getElem_cons hlt
    rw [visual_loop, hv x hlt, ih (x + 1) (by omega), hd]
    cases ds[x] <;> simp [visual_char]

/-! ## Claims -/

/-- C1. Bit-packing round trip: for every width `W` and every sequence `ds` of
`W` ink decisions, the packing step of `output_bitmap_data` on a zeroed line of
`ceil(W/8)` bytes succeeds, and reading bit `7 - idx % 8` of byte `idx / 8` of
the result for `idx = 0 .. W-1`, as `print_visual_line` does, gives back
exactly `ds`. -/
theorem C1_pack_unpack_round_trip (ds : List Bool) :
    ∃ packed, pack_line (fun x => ds[x]?) ds.length ((ds.length + 7) / 8) = some packed ∧
      packed.length = (ds.length + 7) / 8 ∧
      (∀ idx (h : idx < ds.length),
        visual_pixel packed idx = some (if ds[idx] then 1 else 0)) ∧
      print_visual_line packed ds.length = some (ds.map visual_char ++ ['\n']) := by
  obtain ⟨packed, hl, hlen, hb⟩ := pack_line_spec (fun x => ds[x]?) (fun i => ds[i]?.getD false)
    ds.length ((ds.length + 7) / 8)
    (fun i h => by simp [List.getElem?_eq_getElem h]) (by omega)
  have hv : ∀ idx (h : idx < ds.length),
      visual_pixel packed idx = some (if ds[idx] then 1 else 0) := by
    intro idx h
    rw [visual_pixel_eq packed idx (by omega), hb idx]
    simp [h, List.getElem?_eq_getElem h]
  refine ⟨packed, hl, hlen, hv, ?_⟩
  simp [print_visual_line, visual_loop_spec packed ds hv ds.length 0 (by omega)]

/-! ### Decoding lemmas -/

theorem decode_pixel_mono (header : cups_page_header2_t) (line_buffer : List Nat) (idx : Nat)
    (hbpp : header.cupsBitsPerPixel = 1) (h : idx / 8 < line_buffer.length) :
    decode_pixel header line_buffer idx = some (line_bit line_buffer idx) := by
  unfold decode_pixel line_bit
  simp only [hbpp, if_true, List.getElem?_eq_getElem h, Option.getD_some, shift_and_one]
  cases (line_buffer[idx / 8]).testBit (7 - idx % 8) <;> simp

theorem width_bytes_eq (header : cups_page_header2_t) (hw : header.cupsWidth + 7 < UINT_MOD) :
    width_bytes header = (header.cupsWidth + 7) / 8 := by
  unfold width_bytes
  rw [Nat.mod_eq_of_lt hw]

/-- A scanline converts whenever every pixel decodes and `cupsWidth + 7` does
not wrap; bit `y` of the packed line is then the decision of pixel `y`, and 0
from `cupsWidth` on. -/
theorem convert_line_spec (header : cups_page_header2_t) (line_buffer : List Nat)
    (f : Nat → Bool) (hw : header.cupsWidth + 7 < UINT_MOD)
    (hp : ∀ i, i < header.cupsWidth → decode_pixel header line_buffer i = some (f i)) :
    ∃ out, convert_line header line_buffer = some out ∧
      out.length = (header.cupsWidth + 7) / 8 ∧
      ∀ y, line_bit out y = (decide (y < header.cupsWidth) && f y) := by
  unfold convert_line
  rw [width_bytes_eq header hw]
  exact pack_line_spec _ f _ _ hp (by omega)

/-- C2. Monochrome passthrough: for `bitsPerPixel = 1` the ink decision of
every pixel index `idx` whose byte `idx / 8` is in the scanline is the source
bit `7 - idx % 8` of that byte, 1 meaning ink, with no inversion and no
threshold; so the packed line is a bit-for-bit copy of the source over the
`widthPixels` columns, and an all-1 scanline with `W = 24` packs to
`0xFF, 0xFF, 0xFF`. -/
theorem C2_monochrome_passthrough (header : cups_page_header2_t) (line_buffer : List Nat)
    (hbpp : header.cupsBitsPerPixel = 1) :
    (∀ idx, idx / 8 < line_buffer.length →
      decode_pixel header line_buffer idx
        = some ((line_buffer[idx / 8]?.getD 0).testBit (7 - idx % 8))) ∧
    (header.cupsWidth + 7 < UINT_MOD → header.cupsWidth ≤ 8 * line_buffer.length →
      ∃ out, convert_line header line_buffer = some out ∧
        out.length = (header.cupsWidth + 7) / 8 ∧
        ∀ idx, idx < header.cupsWidth → line_bit out idx = line_bit line_buffer idx) ∧
    (header.cupsWidth = 24 → line_buffer = [0xFF, 0xFF, 0xFF] →
      convert_line header line_buffer = some [0xFF, 0xFF, 0xFF]) := by
  refine ⟨fun idx h => decode_pixel_mono header line_buffer idx hbpp h, ?_, ?_⟩
  · intro hw hlen
    obtain ⟨out, ho, hl, hb⟩ := convert_line_spec header line_buffer
      (fun i => line_bit line_buffer i) hw
      (fun i hi => decode_pixel_mono header line_buffer i hbpp (by omega))
    refine ⟨out, ho, hl, ?_⟩
    intro idx hidx
    rw [hb idx]
    simp [hidx]
  · intro hw hbuf
    subst hbuf
    simp [convert_line, width_bytes, hw, UINT_MOD, pack_line, pixel_loop, pack_step,
      decode_pixel, hbpp, set_bit]

/-- C2, at a 24-pixel monochrome scanline. -/
theorem C2_monochrome_passthrough_witness :
    (⟨24, 1, (203, 203), 1, 3⟩ : cups_page_header2_t).cupsBitsPerPixel = 1 ∧
    decode_pixel ⟨24, 1, (203, 203), 1, 3⟩ [0x33, 0xCC, 0x0F] 10 = some false ∧
    convert_line ⟨24, 1, (203, 203), 1, 3⟩ [0xFF, 0xFF, 0xFF] = some [0xFF, 0xFF, 0xFF] :=
  ⟨rfl,
   (C2_monochrome_passthrough ⟨24, 1, (203, 203), 1, 3⟩ [0x33, 0xCC, 0x0F] rfl).1 10
     (by decide),
   (C2_monochrome_passthrough ⟨24, 1, (203, 203), 1, 3⟩ [0xFF, 0xFF, 0xFF] rfl).2.2 rfl rfl⟩

/-- C3. Grayscale threshold: for `bitsPerPixel = 8` the ink decision of every
pixel index `idx` inside the scanline is true exactly when the byte at offset
`idx` is strictly below 128; a byte 127 gives ink, a byte 128 gives no ink. -/
theorem C3_grayscale_threshold (header : cups_page_header2_t) (line_buffer : List Nat)
    (hbpp : header.cupsBitsPerPixel = 8) :
    (∀ idx (h : idx < line_buffer.length),
      decode_pixel header line_buffer idx = some (decide (line_buffer[idx] < 128))) ∧
    (∀ idx, line_buffer[idx]? = some 127 → decode_pixel header line_buffer idx = some true) ∧
    (∀ idx, line_buffer[idx]? = some 128 → decode_pixel header line_buffer idx = some false) := by
  refine ⟨?_, ?_, ?_⟩
  · intro idx h
    simp [decode_pixel, hbpp, List.getElem?_eq_getElem h]
  · intro idx h
    simp [decode_pixel, hbpp, h]
  · intro idx h
    simp [decode_pixel, hbpp, h]

/-- C3, at a scanline holding the gray values 127, 128, 0 and 255. -/
theorem C3_grayscale_threshold_witness :
    (⟨4, 1, (203, 203), 8, 4⟩ : cups_page_header2_t).cupsBitsPerPixel = 8 ∧
    decode_pixel ⟨4, 1, (203, 203), 8, 4⟩ [127, 128, 0, 255] 0 = some true ∧
    decode_pixel ⟨4, 1, (203, 203), 8, 4⟩ [127, 128, 0, 255] 1 = some false ∧
    decode_pixel ⟨4, 1, (203, 203), 8, 4⟩ [127, 128, 0, 255] 3
      = some (decide ((255 : Nat) < 128)) :=
  ⟨rfl,
   (C3_grayscale_threshold ⟨4, 1, (203, 203), 8, 4⟩ [127, 128, 0, 255] rfl).2.1 0 rfl,
   (C3_grayscale_threshold ⟨4, 1, (203, 203), 8, 4⟩ [127, 128, 0, 255] rfl).2.2 1 rfl,
   (C3_grayscale_threshold ⟨4, 1, (203, 203), 8, 4⟩ [127, 128, 0, 255] rfl).1 3 (by decide)⟩

/-- The 24-bit branch inside the line: the decision is the luminance test on
the three bytes at `idx * 3`. -/
theorem decode_pixel_rgb_in_bounds (header : cups_page_header2_t) (line_buffer : List Nat)
    (idx r g b : Nat) (hbpp : header.cupsBitsPerPixel = 24)
    (hin : idx * 3 + 2 < header.cupsBytesPerLine)
    (hbpl : header.cupsBytesPerLine < UINT_MOD)
    (hr : line_buffer[idx * 3]? = some r) (hg : line_buffer[idx * 3 + 1]? = some g)
    (hb : line_buffer[idx * 3 + 2]? = some b)
    (hr8 : r < 256) (hg8 : g < 256) (hb8 : b < 256) :
    decode_pixel header line_buffer idx
      = some (decide ((r * 299 + g * 587 + b * 114) / 1000 < 128)) := by
  have h0 : idx * 3 % UINT_MOD = idx * 3 := Nat.mod_eq_of_lt (by omega)
  have h1 : (idx * 3 + 1) % UINT_MOD = idx * 3 + 1 := Nat.mod_eq_of_lt (by omega)
  have h2 : (idx * 3 + 2) % UINT_MOD = idx * 3 + 2 := Nat.mod_eq_of_lt (by omega)
  have hl : (r * 299 + g * 587 + b * 114) % UINT_MOD = r * 299 + g * 587 + b * 114 :=
    Nat.mod_eq_of_lt (by unfold UINT_MOD; omega)
  unfold decode_pixel
  simp only [hbpp, h0, h1, h2, hin, hr, hg, hb, hl]
  simp

/-- The 24-bit guard: when the three bytes at `idx * 3` do not all lie inside
`cupsBytesPerLine` and `idx * 3 + 2` does not wrap, the decision is no ink. -/
theorem decode_pixel_rgb_guard (header : cups_page_header2_t) (line_buffer : List Nat)
    (idx : Nat) (hbpp : header.cupsBitsPerPixel = 24)
    (hout : header.cupsBytesPerLine ≤ idx * 3 + 2) (hwrap : idx * 3 + 2 < UINT_MOD) :
    decode_pixel header line_buffer idx = some false := by
  have h0 : idx * 3 % UINT_MOD = idx * 3 := Nat.mod_eq_of_lt (by omega)
  have h2 : (idx * 3 + 2) % UINT_MOD = idx * 3 + 2 := Nat.mod_eq_of_lt (by omega)
  have hn : ¬ (idx * 3 + 2 < header.cupsBytesPerLine) := by omega
  unfold decode_pixel
  simp only [hbpp, h0, h2, hn]
  simp

/-- C4 (defect of the code). The 24-bit guard compares `offset + 2`, computed in
32-bit arithmetic, with `cupsBytesPerLine`.  For a 5-byte line of zero bytes
and pixel index 1431655766 the three bytes at `idx * 3 = 4294967298` lie far
beyond the line, yet `x * 3` wraps to 2, the guard passes and the pixel is
decoded from bytes 2..4 as ink; at index 1431655765 the offset is 4294967295,
`offset + 2` wraps to 1, the guard passes and the read is outside the buffer.
Black, white and mid-gray pixels inside the line decode as the claim says. -/
theorem C4_rgb_guard_wraps :
    decode_pixel ⟨1431655767, 1, (203, 203), 24, 5⟩ [0, 0, 0, 0, 0] 1431655766 = some true ∧
    decode_pixel ⟨1431655767, 1, (203, 203), 24, 5⟩ [0, 0, 0, 0, 0] 1431655765 = none ∧
    decode_pixel ⟨1, 1, (203, 203), 24, 3⟩ [0, 0, 0] 0 = some true ∧
    decode_pixel ⟨1, 1, (203, 203), 24, 3⟩ [255, 255, 255] 0 = some false ∧
    decode_pixel ⟨1, 1, (203, 203), 24, 3⟩ [128, 128, 128] 0 = some false := by
  decide

/-! ### The generic branch -/

theorem sum_loop_spec (header : cups_page_header2_t) (line_buffer : List Nat)
    (offset N : Nat) (hlen : line_buffer.length = header.cupsBytesPerLine)
    (hbpl : header.cupsBytesPerLine < UINT_MOD) :
    ∀ (fuel i sum : Nat), fuel + i = N → sum < UINT_MOD → offset + i < UINT_MOD →
      sum_loop header line_buffer offset N fuel i sum
        = some ((sum + ((line_buffer.drop (offset + i)).take fuel).sum) % UINT_MOD) := by
  intro fuel
  induction fuel with
  | zero =>
    intro i sum _ hs _
    simp [sum_loop, Nat.mod_eq_of_lt hs]
  | succ fuel ih =>
    intro i sum hN hs ho
    have hmod : (offset + i) % UINT_MOD = offset + i := Nat.mod_eq_of_lt ho
    have hi : i < N := by omega
    unfold sum_loop
    rw [hmod]
    by_cases hin : offset + i < header.cupsBytesPerLine
    · have hlt : offset + i < line_buffer.length := by omega
      have hd : line_buffer.drop (offset + i)
          = line_buffer[offset + i] :: line_buffer.drop (offset + i + 1) :=
        List.drop_eq_getElem_cons hlt
      simp only [hi, hin, and_self, if_true, List.getElem?_eq_getElem hlt]
      rw [ih (i + 1) ((sum + line_buffer[offset + i]) % UINT_MOD) (by omega)
        (Nat.mod_lt _ (by unfold UINT_MOD; omega)) (by omega), hd]
      simp only [List.take_succ_cons, List.sum_cons]
      rw [Nat.mod_add_mod, ← Nat.add_assoc offset i 1, Nat.add_assoc sum]
    · have hd : line_buffer.drop (offset + i) = [] := List.drop_eq_nil_of_le (by omega)
      simp [hin, hd, Nat.mod_eq_of_lt hs]

/-- The generic branch never reads outside `line_buffer`: the loop guard tests
the very index that is read. -/
theorem sum_loop_defined (header : cups_page_header2_t) (line_buffer : List Nat)
    (offset N : Nat) (hlen : header.cupsBytesPerLine ≤ line_buffer.length) :
    ∀ (fuel i sum : Nat),
      ∃ s, sum_loop header line_buffer offset N fuel i sum = some s := by
  intro fuel
  induction fuel with
  | zero => intro i sum; exact ⟨sum, rfl⟩
  | succ fuel ih =>
    intro i sum
    unfold sum_loop
    by_cases hc : i < N ∧ (offset + i) % UINT_MOD < header.cupsBytesPerLine
    · have hlt : (offset + i) % UINT_MOD < line_buffer.length := by omega
      simp only [hc, and_self, if_true, List.getElem?_eq_getElem hlt]
      exact ih _ _
    · simp only [hc, if_false]
      exact ⟨sum, rfl⟩

theorem decode_pixel_generic (header : cups_page_header2_t) (line_buffer : List Nat)
    (x : Nat) (h1 : header.cupsBitsPerPixel ≠ 1) (h8 : header.cupsBitsPerPixel ≠ 8)
    (h24 : header.cupsBitsPerPixel ≠ 24) :
    decode_pixel header line_buffer x
      = if header.cupsBitsPerPixel / 8 > 0 then
          match sum_loop header line_buffer (x * (header.cupsBitsPerPixel / 8) % UINT_MOD)
              (header.cupsBitsPerPixel / 8) (header.cupsBitsPerPixel / 8) 0 0 with
          | none => none
          | some sum => some (decide (sum / (header.cupsBitsPerPixel / 8) < 128))
        else some false := by
  unfold decode_pixel
  simp only [h1, h8, h24, if_false]

/-- The generic branch on a scanline of `cupsBytesPerLine` bytes: the decision
tests the sum, modulo `2^32`, of the in-bounds prefix of the pixel's bytes,
divided by the byte count `N`. -/
theorem decode_pixel_generic_sum (header : cups_page_header2_t) (line_buffer : List Nat)
    (idx : Nat) (h1 : header.cupsBitsPerPixel ≠ 1) (h8 : header.cupsBitsPerPixel ≠ 8)
    (h24 : header.cupsBitsPerPixel ≠ 24) (hN : 1 ≤ header.cupsBitsPerPixel / 8)
    (hlen : line_buffer.length = header.cupsBytesPerLine)
    (hbpl : header.cupsBytesPerLine < UINT_MOD) :
    decode_pixel header line_buffer idx
      = some (decide
          (((line_buffer.drop (idx * (header.cupsBitsPerPixel / 8) % UINT_MOD)).take
              (header.cupsBitsPerPixel / 8)).sum % UINT_MOD
            / (header.cupsBitsPerPixel / 8) < 128)) := by
  have hM : 0 < UINT_MOD := by unfold UINT_MOD; omega
  rw [decode_pixel_generic header line_buffer idx h1 h8 h24]
  have hpos : header.cupsBitsPerPixel / 8 > 0 := hN
  rw [if_pos hpos, sum_loop_spec header line_buffer _ _ hlen hbpl _ 0 0 (by omega) hM
    (by simpa using Nat.mod_lt _ hM)]
  simp

/-- What the generic branch computes: for a depth other than 1, 8 and 24 with
`N = bitsPerPixel / 8 ≥ 1`, a scanline of `bytesPerLine` bytes and a pixel
index `idx`, as long as 32-bit arithmetic does not wrap (`idx * N < 2^32` and
`255 * N < 2^32`), the decision is true exactly when `S / N < 128`, where `S`
is the sum of those of the `N` bytes at offset `idx * N` that lie inside the
line.  For a pixel inside the line this is the average of its `N` bytes; for a
pixel that overruns the line the divisor is still `N`, not the number of bytes
summed. -/
theorem decode_pixel_generic_prefix (header : cups_page_header2_t) (line_buffer : List Nat)
    (idx : Nat) (h1 : header.cupsBitsPerPixel ≠ 1) (h8 : header.cupsBitsPerPixel ≠ 8)
    (h24 : header.cupsBitsPerPixel ≠ 24) (hN : 1 ≤ header.cupsBitsPerPixel / 8)
    (hlen : line_buffer.length = header.cupsBytesPerLine)
    (hbpl : header.cupsBytesPerLine < UINT_MOD)
    (hbytes : ∀ v ∈ line_buffer, v < 256)
    (hoff : idx * (header.cupsBitsPerPixel / 8) < UINT_MOD)
    (hsmall : 255 * (header.cupsBitsPerPixel / 8) < UINT_MOD) :
    decode_pixel header line_buffer idx
      = some (decide
          (((line_buffer.drop (idx * (header.cupsBitsPerPixel / 8))).take
              (header.cupsBitsPerPixel / 8)).sum
            / (header.cupsBitsPerPixel / 8) < 128)) ∧
    ((line_buffer.drop (idx * (header.cupsBitsPerPixel / 8))).take
        (header.cupsBitsPerPixel / 8)).length
      = min (header.cupsBitsPerPixel / 8)
          (header.cupsBytesPerLine - idx * (header.cupsBitsPerPixel / 8)) := by
  have hl : ((line_buffer.drop (idx * (header.cupsBitsPerPixel / 8))).take
      (header.cupsBitsPerPixel / 8)).length
      = min (header.cupsBitsPerPixel / 8)
          (header.cupsBytesPerLine - idx * (header.cupsBitsPerPixel / 8)) := by
    rw [List.length_take, List.length_drop, hlen]
  have hsum : ((line_buffer.drop (idx * (header.cupsBitsPerPixel / 8))).take
      (header.cupsBitsPerPixel / 8)).sum ≤ 255 * (header.cupsBitsPerPixel / 8) := by
    have := List.sum_le_card_nsmul
      ((line_buffer.drop (idx * (header.cupsBitsPerPixel / 8))).take
        (header.cupsBitsPerPixel / 8)) 255
      (fun v hv => by
        have := hbytes v (List.mem_of_mem_drop (List.mem_of_mem_take hv))
        omega)
    rw [hl, smul_eq_mul] at this
    have hmin : min (header.cupsBitsPerPixel / 8)
        (header.cupsBytesPerLine - idx * (header.cupsBitsPerPixel / 8))
        ≤ header.cupsBitsPerPixel / 8 := Nat.min_le_left _ _
    calc _ ≤ min (header.cupsBitsPerPixel / 8)
          (header.cupsBytesPerLine - idx * (header.cupsBitsPerPixel / 8)) * 255 := this
      _ ≤ header.cupsBitsPerPixel / 8 * 255 := Nat.mul_le_mul_right _ hmin
      _ = 255 * (header.cupsBitsPerPixel / 8) := Nat.mul_comm _ _
  refine ⟨?_, hl⟩
  rw [decode_pixel_generic_sum header line_buffer idx h1 h8 h24 hN hlen hbpl,
    Nat.mod_eq_of_lt hoff, Nat.mod_eq_of_lt (by omega)]

/-- C5 (defect of the code). A 16-bit page with a 3-byte line of white bytes:
pixel 1 starts at offset 2, so only its first byte, 255, lies inside the line.
The average of the in-bounds prefix `[255]` is 255, which is not below 128, yet
the generic branch divides the prefix sum by `N = 2`, gets 127, and decides
ink.  The white pixel 0, which lies inside the line, is no ink, and a pixel
inside the line whose two bytes average 127 is ink. -/
theorem C5_generic_overrun_divides_by_N :
    decode_pixel ⟨2, 1, (203, 203), 16, 3⟩ [255, 255, 255] 1 = some true ∧
    (([255, 255, 255] : List Nat).drop (1 * 2)).take 2 = [255] ∧
    ¬ (([255] : List Nat).sum / ([255] : List Nat).length < 128) ∧
    decode_pixel ⟨2, 1, (203, 203), 16, 3⟩ [255, 255, 255] 0 = some false ∧
    decode_pixel ⟨2, 1, (203, 203), 16, 3⟩ [100, 155, 255] 0 = some true ∧
    decode_pixel ⟨2, 1, (203, 203), 16, 3⟩ [100, 156, 255] 0 = some false := by
  decide

/-! ### The scanline loop -/

/-- C6 (defect of the code). A page declaring height 10 of which the source
yields 6 full scanlines and then ends: the BITMAP header, written before the
loop, declares height 10, while only 6 packed lines follow it. -/
theorem C6_truncated_page_declares_nominal_height :
    output_bitmap_data ⟨8, 10, (203, 203), 1, 1⟩ (List.replicate 6 ⟨1, [0xFF]⟩)
      = some (⟨txt "BITMAP 0,0,1,10,0," ++ List.replicate 6 0xFF ++ txt "\n",
               ["ERROR: Unable to read line 6\n"]⟩, []) := by
  decide

/-- Reads that all return at least one byte and whose buffers convert are
consumed one per iteration, each contributing its packed line. -/
theorem scanline_loop_lines (header : cups_page_header2_t) (rest : List pixel_read) :
    ∀ (done : List pixel_read) (lines : List (List Nat)) (n y : Nat),
      List.Forall₂ (fun rd l => 1 ≤ rd.count ∧ convert_line header rd.line_buffer = some l)
        done lines →
      done.length ≤ n →
      scanline_loop header n y (done ++ rest)
        = (scanline_loop header (n - done.length) (y + done.length) rest).map
            (fun r => (⟨lines.flatten ++ r.1.output, r.1.stderr⟩, r.2)) := by
  intro done lines n y h
  induction h generalizing n y with
  | nil =>
    intro _
    cases hs : scanline_loop header n y rest with
    | none => simp [hs]
    | some r => simp [hs]
  | @cons rd l done lines hrl _ ih =>
    intro hn
    obtain ⟨hc, hl⟩ := hrl
    obtain ⟨m, rfl⟩ : ∃ m, n = m + 1 := ⟨n - 1, by simp at hn; omega⟩
    have hm : done.length ≤ m := by simp at hn; omega
    have hnc : ¬ rd.count < 1 := by omega
    have h1 : m + 1 - (rd :: done).length = m - done.length := by simp
    have h2 : y + (rd :: done).length = y + 1 + done.length := by simp; omega
    rw [List.cons_append, scanline_loop]
    simp only [hnc, if_false, hl]
    rw [ih m (y + 1) hm, h1, h2]
    cases hs : scanline_loop header (m - done.length) (y + 1 + done.length) rest with
    | none => simp
    | some r => simp [List.append_assoc]

/-- C7 (counterexample). With `cupsBytesPerLine = 3` the source returns 1 byte
for scanline 0, fewer than a full line: the loop does not stop, it packs and
emits a line for that scanline and goes on to scanline 1. -/
theorem C7_short_read_counterexample :
    output_bitmap_data ⟨8, 2, (203, 203), 1, 3⟩ [⟨1, [0xFF, 0, 0]⟩]
      = some (⟨txt "BITMAP 0,0,1,2,0," ++ [0xFF] ++ txt "\n",
               ["ERROR: Unable to read line 1\n"]⟩, []) := by
  decide

/-- C7 (as amended). In the scanline loop of `output_bitmap_data`, when the
raster source returns a count below 1 for scanline `k` (or has nothing left),
after `k` scanlines that each returned at least 1 byte, the loop stops: the
output is the BITMAP header, the `k` packed lines and the line terminator,
with nothing for scanline `k` or later, and the reads after the failed one are
left unconsumed.  A count of at least 1, even if below `cupsBytesPerLine`, does
not stop the loop: the scanline is packed from `line_buffer` and emitted. -/
theorem C7_zero_read_stops_loop (header : cups_page_header2_t)
    (done : List pixel_read) (lines : List (List Nat)) (r : pixel_read)
    (rest : List pixel_read)
    (hdone : List.Forall₂
      (fun rd l => 1 ≤ rd.count ∧ convert_line header rd.line_buffer = some l) done lines)
    (hk : done.length < header.cupsHeight) (hr : r.count < 1) :
    output_bitmap_data header (done ++ r :: rest)
      = some (⟨txt ("BITMAP 0,0," ++ fmt_u (width_bytes header) ++ "," ++
                 fmt_u header.cupsHeight ++ ",0,") ++ lines.flatten ++ txt "\n",
               ["ERROR: Unable to read line " ++ fmt_u done.length ++ "\n"]⟩, rest) ∧
    output_bitmap_data header done
      = some (⟨txt ("BITMAP 0,0," ++ fmt_u (width_bytes header) ++ "," ++
                 fmt_u header.cupsHeight ++ ",0,") ++ lines.flatten ++ txt "\n",
               ["ERROR: Unable to read line " ++ fmt_u done.length ++ "\n"]⟩, []) ∧
    (∀ (n y : Nat) (r1 : pixel_read) (l : List Nat), 1 ≤ r1.count →
      convert_line header r1.line_buffer = some l →
      scanline_loop header (n + 1) y (r1 :: rest)
        = (scanline_loop header n (y + 1) rest).map
            (fun s => (⟨l ++ s.1.output, s.1.stderr⟩, s.2))) := by
  obtain ⟨m, hm⟩ : ∃ m, header.cupsHeight - done.length = m + 1 :=
    ⟨header.cupsHeight - done.length - 1, by omega⟩
  refine ⟨?_, ?_, ?_⟩
  · unfold output_bitmap_data
    rw [scanline_loop_lines header (r :: rest) done lines _ 0 hdone (by omega), hm]
    simp [scanline_loop, hr]
  · unfold output_bitmap_data
    have := scanline_loop_lines header [] done lines header.cupsHeight 0 hdone (by omega)
    rw [List.append_nil] at this
    rw [this, hm]
    simp [scanline_loop]
  · intro n y r1 l hc hl
    have hnc : ¬ r1.count < 1 := by omega
    rw [scanline_loop]
    simp only [hnc, if_false, hl]
    cases hs : scanline_loop header n (y + 1) rest with
    | none => simp
    | some s => simp

/-- C7, at a page of three scanlines whose third read returns 0. -/
theorem C7_zero_read_stops_loop_witness :
    output_bitmap_data ⟨8, 3, (203, 203), 1, 3⟩
        ([⟨3, [0x0F, 0, 0]⟩, ⟨1, [0xFF, 0, 0]⟩] ++ ⟨0, [0xAA, 0, 0]⟩ :: [⟨3, [0x55, 0, 0]⟩])
      = some (⟨txt ("BITMAP 0,0," ++ fmt_u 1 ++ "," ++ fmt_u 3 ++ ",0,")
                 ++ [[0x0F], [0xFF]].flatten ++ txt "\n",
               ["ERROR: Unable to read line " ++ fmt_u 2 ++ "\n"]⟩, [⟨3, [0x55, 0, 0]⟩]) :=
  (C7_zero_read_stops_loop ⟨8, 3, (203, 203), 1, 3⟩
    [⟨3, [0x0F, 0, 0]⟩, ⟨1, [0xFF, 0, 0]⟩] [[0x0F], [0xFF]] ⟨0, [0xAA, 0, 0]⟩
    [⟨3, [0x55, 0, 0]⟩]
    (List.Forall₂.cons ⟨by decide, by decide⟩
      (List.Forall₂.cons ⟨by decide, by decide⟩ List.Forall₂.nil))
    (by decide) (by decide)).1

/-! ### Pages -/

/-- No message of the page prologue is an error report. -/
theorem page_prologue_no_error (header : cups_page_header2_t) (page density speed : Int)
    (label_width label_height : Dbl) :
    reports_error (page_prologue header page density speed label_width label_height)
      = false := by
  simp [reports_error, page_prologue, is_error, String.toList]
  refine ⟨?_, ?_, ?_, ?_, ?_, ?_⟩ <;> rfl

/-- A page whose reads all succeed and convert is written in full: the BITMAP
header, the packed lines one after the other, the line terminator, and no
message on `stderr`. -/
theorem output_bitmap_data_full (header : cups_page_header2_t) (reads : List pixel_read)
    (lines : List (List Nat))
    (hreads : List.Forall₂
      (fun rd l => 1 ≤ rd.count ∧ convert_line header rd.line_buffer = some l) reads lines)
    (hfull : reads.length = header.cupsHeight) :
    output_bitmap_data header reads
      = some (⟨txt ("BITMAP 0,0," ++ fmt_u (width_bytes header) ++ "," ++
                 fmt_u header.cupsHeight ++ ",0,") ++ lines.flatten ++ txt "\n", []⟩, []) := by
  have := scanline_loop_lines header [] reads lines header.cupsHeight 0 hreads (by omega)
  rw [List.append_nil] at this
  unfold output_bitmap_data
  rw [this, hfull]
  simp [scanline_loop]

/-- Reads whose buffers all convert are related to the list of their packed
lines. -/
theorem forall₂_convert_line (header : cups_page_header2_t) :
    ∀ (reads : List pixel_read),
      (∀ r ∈ reads, 1 ≤ r.count ∧ ∃ l, convert_line header r.line_buffer = some l) →
      List.Forall₂
        (fun rd l => 1 ≤ rd.count ∧ convert_line header rd.line_buffer = some l) reads
        (reads.map (fun r => (convert_line header r.line_buffer).getD [])) := by
  intro reads
  induction reads with
  | nil => intro _; exact List.Forall₂.nil
  | cons r reads ih =>
    intro h
    obtain ⟨hc, l, hl⟩ := h r (List.mem_cons_self _ _)
    rw [List.map_cons]
    refine List.Forall₂.cons ⟨hc, ?_⟩ (ih (fun r' hr' => h r' (List.mem_cons_of_mem _ hr')))
    simp [hl]

theorem pixel_loop_no_ink (pixel_at : Nat → Option Bool)
    (hz : ∀ x, pixel_at x = some false) :
    ∀ (n x : Nat) (l : List Nat), pixel_loop pixel_at n x l = some l := by
  intro n
  induction n with
  | zero => intro x l; rfl
  | succ n ih =>
    intro x l
    simp [pixel_loop, pack_step, hz x, ih]

/-- With a depth other than 1, 8 and 24 every pixel decodes (the generic branch
guards each read), so every scanline converts; when `bitsPerPixel / 8 = 0` the
packed line is all zero. -/
theorem convert_line_generic (header : cups_page_header2_t) (line_buffer : List Nat)
    (h1 : header.cupsBitsPerPixel ≠ 1) (h8 : header.cupsBitsPerPixel ≠ 8)
    (h24 : header.cupsBitsPerPixel ≠ 24) (hw : header.cupsWidth + 7 < UINT_MOD)
    (hlen : header.cupsBytesPerLine ≤ line_buffer.length) :
    ∃ l, convert_line header line_buffer = some l ∧
      l.length = (header.cupsWidth + 7) / 8 ∧
      (header.cupsBitsPerPixel / 8 = 0 → l = List.replicate ((header.cupsWidth + 7) / 8) 0) := by
  have hdef : ∀ x, ∃ b, decode_pixel header line_buffer x = some b := by
    intro x
    rw [decode_pixel_generic header line_buffer x h1 h8 h24]
    by_cases hN : header.cupsBitsPerPixel / 8 > 0
    · obtain ⟨s, hs⟩ := sum_loop_defined header line_buffer
        (x * (header.cupsBitsPerPixel / 8) % UINT_MOD) (header.cupsBitsPerPixel / 8) hlen
        (header.cupsBitsPerPixel / 8) 0 0
      rw [if_pos hN, hs]
      exact ⟨_, rfl⟩
    · rw [if_neg hN]
      exact ⟨_, rfl⟩
  obtain ⟨l, hl, hlen', hb⟩ := convert_line_spec header line_buffer
    (fun x => (decode_pixel header line_buffer x).getD false) hw
    (fun i _ => by obtain ⟨b, hb⟩ := hdef i; simp [hb])
  refine ⟨l, hl, hlen', ?_⟩
  intro hN
  have hz : ∀ x, decode_pixel header line_buffer x = some false := by
    intro x
    rw [decode_pixel_generic header line_buffer x h1 h8 h24, if_neg (by omega)]
  unfold convert_line pack_line at hl
  rw [width_bytes_eq header hw, pixel_loop_no_ink _ hz] at hl
  cases hl
  rfl

/-- C9 (counterexample). A page of depth 4, which is neither 1 nor a multiple
of 8, with a scanline of four zero bytes: the conversion reports no error and
emits a BITMAP command whose line is zero-filled. -/
theorem C9_unsupported_depth_counterexample :
    (convert_raster_to_tspl [⟨⟨8, 1, (203, 203), 4, 4⟩, [⟨4, [0, 0, 0, 0]⟩]⟩] 8 4
        (Dbl.fin false 0 0) (Dbl.fin false 0 0)).map
        (fun s => (s.output, reports_error s))
      = some (txt ("SIZE 1.0 mm,0.1 mm\nGAP 2 mm,0\nDENSITY 8\nSPEED 4\nDIRECTION 1\n" ++
                "CLS\nBITMAP 0,0,1,1,0,") ++ [0] ++ txt "\nPRINT 1\n", false) := by
  decide

/-- C9 (as amended). For every depth that is not 1 and not a multiple of 8,
a page read in full is converted without any error report: the BITMAP command
is emitted with `cupsHeight` packed lines of `ceil(W/8)` bytes.  When
`bitsPerPixel < 8` (so `N = bitsPerPixel / 8 = 0`) every pixel is decoded as no
ink and every emitted line is zero-filled; otherwise each pixel is decoded by
the generic branch with the truncated byte count `N = bitsPerPixel / 8`. -/
theorem C9_unsupported_depth_not_rejected (header : cups_page_header2_t)
    (reads : List pixel_read)
    (hne1 : header.cupsBitsPerPixel ≠ 1) (hmul : header.cupsBitsPerPixel % 8 ≠ 0)
    (hw : header.cupsWidth + 7 < UINT_MOD) (hfull : reads.length = header.cupsHeight)
    (hreads : ∀ r ∈ reads, 1 ≤ r.count ∧ header.cupsBytesPerLine ≤ r.line_buffer.length) :
    ∃ lines : List (List Nat),
      output_bitmap_data header reads
        = some (⟨txt ("BITMAP 0,0," ++ fmt_u (width_bytes header) ++ "," ++
                   fmt_u header.cupsHeight ++ ",0,") ++ lines.flatten ++ txt "\n", []⟩, []) ∧
      lines.length = header.cupsHeight ∧
      (∀ l ∈ lines, l.length = (header.cupsWidth + 7) / 8) ∧
      (header.cupsBitsPerPixel < 8 →
        ∀ l ∈ lines, l = List.replicate ((header.cupsWidth + 7) / 8) 0) ∧
      (∀ (page density speed : Int) (label_width label_height : Dbl),
        ∃ out, convert_page ⟨header, reads⟩ page density speed label_width label_height
            = some out ∧ reports_error out = false) ∧
      (∀ (line_buffer : List Nat) (x : Nat),
        decode_pixel header line_buffer x
          = if header.cupsBitsPerPixel / 8 > 0 then
              match sum_loop header line_buffer
                  (x * (header.cupsBitsPerPixel / 8) % UINT_MOD)
                  (header.cupsBitsPerPixel / 8) (header.cupsBitsPerPixel / 8) 0 0 with
              | none => none
              | some sum => some (decide (sum / (header.cupsBitsPerPixel / 8) < 128))
            else some false) := by
  have h8 : header.cupsBitsPerPixel ≠ 8 := by omega
  have h24 : header.cupsBitsPerPixel ≠ 24 := by omega
  have hconv : ∀ r ∈ reads, 1 ≤ r.count ∧ ∃ l, convert_line header r.line_buffer = some l := by
    intro r hr
    obtain ⟨hc, hl⟩ := hreads r hr
    obtain ⟨l, hl', _⟩ := convert_line_generic header r.line_buffer hne1 h8 h24 hw hl
    exact ⟨hc, l, hl'⟩
  have hout := output_bitmap_data_full header reads _ (forall₂_convert_line header reads hconv)
    hfull
  refine ⟨reads.map (fun r => (convert_line header r.line_buffer).getD []), ?_, ?_, ?_, ?_,
    ?_, ?_⟩
  · exact hout
  · simp [hfull]
  · intro l hl
    obtain ⟨r, hr, rfl⟩ := List.mem_map.mp hl
    obtain ⟨l', hl', hlen, _⟩ := convert_line_generic header r.line_buffer hne1 h8 h24 hw
      (hreads r hr).2
    simp [hl', hlen]
  · intro hlt l hl
    obtain ⟨r, hr, rfl⟩ := List.mem_map.mp hl
    obtain ⟨l', hl', _, hz⟩ := convert_line_generic header r.line_buffer hne1 h8 h24 hw
      (hreads r hr).2
    simp [hl', hz (by omega)]
  · intro page density speed label_width label_height
    refine ⟨_, by simp only [convert_page, hout]; rfl, ?_⟩
    have hp := page_prologue_no_error header page density speed label_width label_height
    simp only [reports_error, Streams.append, List.any_append, List.append_nil] at hp ⊢
    simp [hp]
  · intro line_buffer x
    exact decode_pixel_generic header line_buffer x hne1 h8 h24

/-- C9, at a page of depth 12 with two scanlines. -/
theorem C9_unsupported_depth_not_rejected_witness :
    ∃ lines : List (List Nat),
      output_bitmap_data ⟨8, 2, (203, 203), 12, 8⟩
          [⟨8, [0, 255, 0, 255, 0, 255, 0, 255]⟩, ⟨8, [255, 255, 255, 255, 0, 0, 0, 0]⟩]
        = some (⟨txt ("BITMAP 0,0," ++ fmt_u (width_bytes ⟨8, 2, (203, 203), 12, 8⟩) ++ "," ++
                   fmt_u 2 ++ ",0,") ++ lines.flatten ++ txt "\n", []⟩, []) ∧
      lines.length = 2 :=
  let ⟨lines, h, hl, _⟩ := C9_unsupported_depth_not_rejected ⟨8, 2, (203, 203), 12, 8⟩
    [⟨8, [0, 255, 0, 255, 0, 255, 0, 255]⟩, ⟨8, [255, 255, 255, 255, 0, 0, 0, 0]⟩]
    (by decide) (by decide) (by decide) rfl (by decide)
  ⟨lines, h, hl⟩

/-! ### Rounding to a double -/

theorem bit_length_aux_zero (fuel : Nat) : bit_length_aux fuel 0 = 0 := by
  cases fuel <;> simp [bit_length_aux]

theorem bit_length_aux_spec :
    ∀ (fuel n : Nat), n ≤ fuel →
      n < 2 ^ bit_length_aux fuel n ∧ (0 < n → 2 ^ bit_length_aux fuel n ≤ 2 * n) := by
  intro fuel
  induction fuel with
  | zero =>
    intro n hn
    have : n = 0 := by omega
    subst this
    simp [bit_length_aux]
  | succ fuel ih =>
    intro n hn
    by_cases h0 : n = 0
    · subst h0
      simp [bit_length_aux]
    · obtain ⟨h1, h2⟩ := ih (n / 2) (by omega)
      have hb : bit_length_aux (fuel + 1) n = bit_length_aux fuel (n / 2) + 1 := by
        simp [bit_length_aux, h0]
      rw [hb, pow_succ]
      refine ⟨by omega, fun _ => ?_⟩
      by_cases hh : n / 2 = 0
      · rw [hh, bit_length_aux_zero]
        simp
        omega
      · have := h2 (by omega)
        omega

/-- A positive `n` has exactly `bit_length n` binary digits. -/
theorem bit_length_spec (n : Nat) (hn : 0 < n) :
    n < 2 ^ bit_length n ∧ 2 ^ bit_length n ≤ 2 * n := by
  obtain ⟨h1, h2⟩ := bit_length_aux_spec n n (le_refl n)
  exact ⟨h1, h2 hn⟩

/-- The rounded quotient is within half a unit of `N / D`. -/
theorem round_half_even_spec (N D : Nat) (hD : 0 < D) :
    2 * (round_half_even N D * D) ≤ 2 * N + D ∧
    2 * N ≤ 2 * (round_half_even N D * D) + D := by
  have hdm := Nat.div_add_mod N D
  have hr := Nat.mod_lt N hD
  have hc : D * (N / D) = N / D * D := Nat.mul_comm _ _
  have hs : (N / D + 1) * D = N / D * D + D := by ring
  unfold round_half_even
  simp only []
  split
  · omega
  · split
    · rw [hs]; omega
    · have hq : N / D % 2 = 0 ∨ N / D % 2 = 1 := Nat.mod_two_eq_zero_or_one _
      rcases hq with hq | hq
      · rw [hq, Nat.add_zero]; omega
      · rw [hq, hs]; omega

theorem round_half_even_ge (N D K : Nat) (hD : 0 < D) (h : K * D ≤ N) :
    K ≤ round_half_even N D := by
  have hq : K ≤ N / D := (Nat.le_div_iff_mul_le hD).mpr h
  unfold round_half_even
  simp only []
  split
  · exact hq
  · split <;> omega

theorem round_half_even_le (N D K : Nat) (hD : 0 < D) (h : N ≤ K * D) :
    round_half_even N D ≤ K := by
  have hdm := Nat.div_add_mod N D
  have hr := Nat.mod_lt N hD
  have hq : N / D ≤ K := by
    calc N / D ≤ K * D / D := Nat.div_le_div_right h
      _ = K := Nat.mul_div_cancel K hD
  have hlt : N / D < K ∨ N / D = K := by omega
  unfold round_half_even
  simp only []
  rcases hlt with hlt | heq
  · split
    · omega
    · split <;> omega
  · have hr0 : N % D = 0 := by
      have : D * (N / D) = K * D := by rw [heq, Nat.mul_comm]
      omega
    rw [hr0]
    simp [hD, heq]

theorem two_pow_toNat_div (t : ℤ) :
    (2 : ℚ) ^ (-t).toNat / (2 : ℚ) ^ t.toNat = (2 : ℚ) ^ (-t) := by
  rcases le_total 0 t with h | h
  · have h1 : (-t).toNat = 0 := by omega
    have h2 : ((t.toNat : ℕ) : ℤ) = t := Int.toNat_of_nonneg h
    rw [h1, pow_zero, one_div, zpow_neg]
    congr 1
    rw [← zpow_natCast, h2]
  · have h1 : t.toNat = 0 := by omega
    have h2 : (((-t).toNat : ℕ) : ℤ) = -t := Int.toNat_of_nonneg (by omega)
    rw [h1, pow_zero, div_one, ← zpow_natCast, h2]

/-- The quotient of the two scaled operands is `n / d` times `2^(-t)`. -/
theorem scaled_quotient (n d : ℕ) (t : ℤ) :
    ((n * 2 ^ (-t).toNat : ℕ) : ℚ) / ((d * 2 ^ t.toNat : ℕ) : ℚ)
      = (n : ℚ) / d * (2 : ℚ) ^ (-t) := by
  push_cast
  rw [mul_div_mul_comm, two_pow_toNat_div]

theorem scaled_le_iff (n d K : ℕ) (t : ℤ) (hd : 0 < d) :
    K * (d * 2 ^ t.toNat) ≤ n * 2 ^ (-t).toNat ↔ (K : ℚ) ≤ (n : ℚ) / d * (2 : ℚ) ^ (-t) := by
  have hB : (0 : ℚ) < ((d * 2 ^ t.toNat : ℕ) : ℚ) := by
    have : 0 < d * 2 ^ t.toNat := Nat.mul_pos hd (by positivity)
    exact_mod_cast this
  rw [← scaled_quotient, le_div_iff₀ hB]
  exact_mod_cast Iff.rfl

theorem scaled_ge_iff (n d K : ℕ) (t : ℤ) (hd : 0 < d) :
    n * 2 ^ (-t).toNat ≤ K * (d * 2 ^ t.toNat) ↔ (n : ℚ) / d * (2 : ℚ) ^ (-t) ≤ (K : ℚ) := by
  have hB : (0 : ℚ) < ((d * 2 ^ t.toNat : ℕ) : ℚ) := by
    have : 0 < d * 2 ^ t.toNat := Nat.mul_pos hd (by positivity)
    exact_mod_cast this
  rw [← scaled_quotient, div_le_iff₀ hB]
  exact_mod_cast Iff.rfl

/-- Rounding a quotient that has been scaled into `[2^52, 2^53]`: the
significand has 53 bits and the result is within half a unit in the last place
of `n / d`. -/
theorem round_scaled_spec (n d : ℕ) (t : ℤ) (hd : 0 < d)
    (hlo : (2 : ℚ) ^ 52 ≤ (n : ℚ) / d * (2 : ℚ) ^ (-t))
    (hhi : (n : ℚ) / d * (2 : ℚ) ^ (-t) ≤ (2 : ℚ) ^ 53) :
    2 ^ 52 ≤ round_half_even (n * 2 ^ (-t).toNat) (d * 2 ^ t.toNat) ∧
    round_half_even (n * 2 ^ (-t).toNat) (d * 2 ^ t.toNat) ≤ 2 ^ 53 ∧
    |((round_half_even (n * 2 ^ (-t).toNat) (d * 2 ^ t.toNat) : ℕ) : ℚ) * (2 : ℚ) ^ t
        - (n : ℚ) / d| * 2 ≤ (2 : ℚ) ^ t ∧
    (2 : ℚ) ^ 52 * (2 : ℚ) ^ t ≤ (n : ℚ) / d := by
  have hBpos : 0 < d * 2 ^ t.toNat := Nat.mul_pos hd (by positivity)
  have hB : (0 : ℚ) < ((d * 2 ^ t.toNat : ℕ) : ℚ) := by exact_mod_cast hBpos
  have ht : (0 : ℚ) < (2 : ℚ) ^ t := by positivity
  have hinv : (2 : ℚ) ^ (-t) * (2 : ℚ) ^ t = 1 := by
    rw [← zpow_add₀ (by norm_num : (2 : ℚ) ≠ 0)]
    simp
  have hlo' : 2 ^ 52 * (d * 2 ^ t.toNat) ≤ n * 2 ^ (-t).toNat :=
    (scaled_le_iff n d (2 ^ 52) t hd).mpr (by exact_mod_cast hlo)
  have hhi' : n * 2 ^ (-t).toNat ≤ 2 ^ 53 * (d * 2 ^ t.toNat) :=
    (scaled_ge_iff n d (2 ^ 53) t hd).mpr (by exact_mod_cast hhi)
  obtain ⟨e1, e2⟩ := round_half_even_spec (n * 2 ^ (-t).toNat) (d * 2 ^ t.toNat) hBpos
  refine ⟨round_half_even_ge _ _ _ hBpos hlo', round_half_even_le _ _ _ hBpos hhi', ?_, ?_⟩
  · generalize round_half_even (n * 2 ^ (-t).toNat) (d * 2 ^ t.toNat) = m at e1 e2
    have hx : (n : ℚ) / d
        = ((n * 2 ^ (-t).toNat : ℕ) : ℚ) / ((d * 2 ^ t.toNat : ℕ) : ℚ) * (2 : ℚ) ^ t := by
      rw [scaled_quotient, mul_assoc, hinv, mul_one]
    have e1' : (2 : ℚ) * ((m : ℚ) * ((d * 2 ^ t.toNat : ℕ) : ℚ))
        ≤ 2 * ((n * 2 ^ (-t).toNat : ℕ) : ℚ) + ((d * 2 ^ t.toNat : ℕ) : ℚ) := by
      exact_mod_cast e1
    have e2' : (2 : ℚ) * ((n * 2 ^ (-t).toNat : ℕ) : ℚ)
        ≤ 2 * ((m : ℚ) * ((d * 2 ^ t.toNat : ℕ) : ℚ)) + ((d * 2 ^ t.toNat : ℕ) : ℚ) := by
      exact_mod_cast e2
    generalize ((n * 2 ^ (-t).toNat : ℕ) : ℚ) = A at hx e1' e2'
    generalize ((d * 2 ^ t.toNat : ℕ) : ℚ) = B at hx e1' e2' hB
    rw [hx, ← sub_mul, abs_mul, abs_of_pos ht]
    have hab : |(m : ℚ) - A / B| * 2 ≤ 1 := by
      have h1 : (m : ℚ) - A / B = ((m : ℚ) * B - A) / B := by field_simp
      rw [h1, abs_div, abs_of_pos hB, div_mul_eq_mul_div, div_le_one hB]
      have : |(m : ℚ) * B - A| ≤ B / 2 := by
        rw [abs_le]; constructor <;> linarith
      linarith
    calc |(m : ℚ) - A / B| * (2 : ℚ) ^ t * 2 = (|(m : ℚ) - A / B| * 2) * (2 : ℚ) ^ t := by ring
      _ ≤ 1 * (2 : ℚ) ^ t := mul_le_mul_of_nonneg_right hab ht.le
      _ = (2 : ℚ) ^ t := one_mul _
  · calc (2 : ℚ) ^ 52 * (2 : ℚ) ^ t ≤ ((n : ℚ) / d * (2 : ℚ) ^ (-t)) * (2 : ℚ) ^ t :=
        mul_le_mul_of_nonneg_right hlo ht.le
      _ = (n : ℚ) / d := by rw [mul_assoc, hinv, mul_one]

/-- The double nearest to a positive quotient: the significand has 53 bits
(`2^52 ≤ m ≤ 2^53`), the result is within half a unit in the last place of
`n / d`, and one unit in the last place is at most `2^-52` of `n / d`. -/
theorem round_to_double_spec (neg : Bool) (n d : ℕ) (e : ℤ) (hn : 0 < n) (hd : 0 < d) :
    ∃ (m : ℕ) (s : ℤ), round_to_double neg n d e = Dbl.fin neg m (e + s) ∧
      2 ^ 52 ≤ m ∧ m ≤ 2 ^ 53 ∧
      |(m : ℚ) * (2 : ℚ) ^ s - (n : ℚ) / d| * 2 ≤ (2 : ℚ) ^ s ∧
      (2 : ℚ) ^ 52 * (2 : ℚ) ^ s ≤ (n : ℚ) / d := by
  obtain ⟨hn1, hn2⟩ := bit_length_spec n hn
  obtain ⟨hd1, hd2⟩ := bit_length_spec d hd
  have qn1 : (n : ℚ) < (2 : ℚ) ^ bit_length n := by exact_mod_cast hn1
  have qn2 : (2 : ℚ) ^ bit_length n ≤ 2 * n := by exact_mod_cast hn2
  have qd1 : (d : ℚ) < (2 : ℚ) ^ bit_length d := by exact_mod_cast hd1
  have qd2 : (2 : ℚ) ^ bit_length d ≤ 2 * d := by exact_mod_cast hd2
  have qd : (0 : ℚ) < d := by exact_mod_cast hd
  have qn : (0 : ℚ) < n := by exact_mod_cast hn
  have two_ne : (2 : ℚ) ≠ 0 := by norm_num
  unfold round_to_double
  rw [if_neg (Nat.ne_of_gt hn)]
  dsimp only
  generalize hs1 : (bit_length n : ℤ) - (bit_length d : ℤ) - 53 = s1
  have hpow : (2 : ℚ) ^ (-s1)
      = (2 : ℚ) ^ bit_length d * 2 ^ 53 / (2 : ℚ) ^ bit_length n := by
    have : -s1 = (bit_length d : ℤ) + 53 - (bit_length n : ℤ) := by omega
    rw [this, zpow_sub₀ two_ne, zpow_add₀ two_ne, zpow_natCast, zpow_natCast]
    norm_num
  have ha : (0 : ℚ) < (2 : ℚ) ^ bit_length n := by positivity
  have hb : (0 : ℚ) < (2 : ℚ) ^ bit_length d := by positivity
  have hx1 : (2 : ℚ) ^ 52 ≤ (n : ℚ) / d * (2 : ℚ) ^ (-s1) := by
    rw [hpow, div_mul_div_comm, le_div_iff₀ (by positivity)]
    generalize (2 : ℚ) ^ bit_length n = a at *
    generalize (2 : ℚ) ^ bit_length d = b at *
    nlinarith [mul_le_mul qd1.le qn2 ha.le hb.le]
  have hx2 : (n : ℚ) / d * (2 : ℚ) ^ (-s1) < (2 : ℚ) ^ 54 := by
    rw [hpow, div_mul_div_comm, div_lt_iff₀ (by positivity)]
    generalize (2 : ℚ) ^ bit_length n = a at *
    generalize (2 : ℚ) ^ bit_length d = b at *
    nlinarith [mul_lt_mul qn1 qd2 hb (by linarith : (0 : ℚ) ≤ a)]
  have hhalf : (2 : ℚ) ^ (-(s1 + 1)) = (2 : ℚ) ^ (-s1) / 2 := by
    have : -(s1 + 1) = -s1 - 1 := by omega
    rw [this, zpow_sub₀ two_ne, zpow_one]
  by_cases hc : 2 ^ 53 * (d * 2 ^ s1.toNat) ≤ n * 2 ^ (-s1).toNat
  · have hc' := (scaled_le_iff n d (2 ^ 53) s1 hd).mp hc
    push_cast at hc'
    have hlo : (2 : ℚ) ^ 52 ≤ (n : ℚ) / d * (2 : ℚ) ^ (-(s1 + 1)) := by
      rw [hhalf]; linarith
    have hhi : (n : ℚ) / d * (2 : ℚ) ^ (-(s1 + 1)) ≤ (2 : ℚ) ^ 53 := by
      rw [hhalf]; linarith
    refine ⟨_, s1 + 1, ?_, round_scaled_spec n d (s1 + 1) hd hlo hhi⟩
    rw [if_pos hc]
  · have hc' : ¬ ((2 ^ 53 : ℕ) : ℚ) ≤ (n : ℚ) / d * (2 : ℚ) ^ (-s1) :=
      fun h => hc ((scaled_le_iff n d (2 ^ 53) s1 hd).mpr h)
    push_cast at hc'
    have hhi : (n : ℚ) / d * (2 : ℚ) ^ (-s1) ≤ (2 : ℚ) ^ 53 := by linarith
    refine ⟨_, s1, ?_, round_scaled_spec n d s1 hd hx1 hhi⟩
    rw [if_neg hc]

/-- The exact value of a correctly rounded positive quotient differs from
`(n / d) * 2^e` by at most the fraction `2^-53` of it. -/
theorem round_to_double_error (n d : ℕ) (e : ℤ) (hn : 0 < n) (hd : 0 < d) :
    |(round_to_double false n d e).to_rat - (n : ℚ) / d * (2 : ℚ) ^ e|
      ≤ (n : ℚ) / d * (2 : ℚ) ^ e / 2 ^ 53 := by
  obtain ⟨m, s, hr, _, _, herr, hulp⟩ := round_to_double_spec false n d e hn hd
  have two_ne : (2 : ℚ) ≠ 0 := by norm_num
  have he : (0 : ℚ) < (2 : ℚ) ^ e := by positivity
  rw [hr]
  simp only [Dbl.to_rat, Bool.false_eq_true, if_false, one_mul]
  rw [zpow_add₀ two_ne, mul_comm ((2 : ℚ) ^ e), ← mul_assoc, ← sub_mul, abs_mul, abs_of_pos he]
  have hrel : |(m : ℚ) * (2 : ℚ) ^ s - (n : ℚ) / d| ≤ (n : ℚ) / d / 2 ^ 53 := by
    rw [le_div_iff₀ (by positivity)]
    nlinarith [abs_nonneg ((m : ℚ) * (2 : ℚ) ^ s - (n : ℚ) / d)]
  calc |(m : ℚ) * (2 : ℚ) ^ s - (n : ℚ) / d| * (2 : ℚ) ^ e
      ≤ (n : ℚ) / d / 2 ^ 53 * (2 : ℚ) ^ e := mul_le_mul_of_nonneg_right hrel he.le
    _ = (n : ℚ) / d * (2 : ℚ) ^ e / 2 ^ 53 := by ring

/-- The digits printed by `%.1f` are within `0.05` of the value. -/
theorem tenths_spec (m : ℕ) (e : ℤ) :
    |(tenths m e : ℚ) - 10 * ((m : ℚ) * (2 : ℚ) ^ e)| * 2 ≤ 1 := by
  unfold tenths
  by_cases he : 0 ≤ e
  · have h2 : ((e.toNat : ℕ) : ℤ) = e := Int.toNat_of_nonneg he
    have hp : ((2 : ℚ) ^ e.toNat) = (2 : ℚ) ^ e := by rw [← zpow_natCast, h2]
    rw [if_pos he]
    push_cast
    rw [hp]
    have : (m : ℚ) * (2 : ℚ) ^ e * 10 - 10 * ((m : ℚ) * (2 : ℚ) ^ e) = 0 := by ring
    rw [this]
    simp
  · have h2 : (((-e).toNat : ℕ) : ℤ) = -e := Int.toNat_of_nonneg (by omega)
    have hD : 0 < 2 ^ (-e).toNat := by positivity
    have hp : (2 : ℚ) ^ e = 1 / (2 : ℚ) ^ (-e).toNat := by
      rw [← zpow_natCast, h2, zpow_neg, one_div, inv_inv]
    obtain ⟨e1, e2⟩ := round_half_even_spec (m * 10) (2 ^ (-e).toNat) hD
    rw [if_neg he, hp]
    generalize round_half_even (m * 10) (2 ^ (-e).toNat) = t at e1 e2
    have e1' : (2 : ℚ) * ((t : ℚ) * (2 : ℚ) ^ (-e).toNat)
        ≤ 2 * ((m : ℚ) * 10) + (2 : ℚ) ^ (-e).toNat := by exact_mod_cast e1
    have e2' : (2 : ℚ) * ((m : ℚ) * 10)
        ≤ 2 * ((t : ℚ) * (2 : ℚ) ^ (-e).toNat) + (2 : ℚ) ^ (-e).toNat := by exact_mod_cast e2
    have hDq : (0 : ℚ) < (2 : ℚ) ^ (-e).toNat := by positivity
    generalize (2 : ℚ) ^ (-e).toNat = D at *
    have h1 : (t : ℚ) - 10 * ((m : ℚ) * (1 / D)) = ((t : ℚ) * D - 10 * m) / D := by
      field_simp
    rw [h1, abs_div, abs_of_pos hDq, div_mul_eq_mul_div, div_le_one hDq]
    have : |(t : ℚ) * D - 10 * m| ≤ D / 2 := by
      rw [abs_le]; constructor <;> linarith
    linarith

theorem MM_PER_INCH_eq : MM_PER_INCH = Dbl.fin false 7149464408450662 (-48) := by
  decide

theorem mul_unsigned (pixels c : ℕ) (e : ℤ) :
    Dbl.mul (Dbl.fin false pixels 0) (Dbl.fin false c e)
      = round_to_double false (pixels * c) 1 e := by
  simp [Dbl.mul]

theorem div_unsigned (m : ℕ) (e : ℤ) (dpi : ℕ) :
    Dbl.div (Dbl.fin false m e) (Dbl.fin false dpi 0)
      = if dpi = 0 then (if m = 0 then Dbl.invalid else Dbl.inf false)
        else round_to_double false m dpi e := by
  simp [Dbl.div]

/-- Division by a zero resolution: the derived size is `+inf`, or the NaN of
`0/0` when the pixel count is zero as well. -/
theorem derived_mm_zero_dpi (pixels : ℕ) :
    derived_mm pixels 0 = if pixels = 0 then Dbl.nan true else Dbl.inf false := by
  unfold derived_mm Dbl.of_unsigned
  rw [MM_PER_INCH_eq, mul_unsigned]
  by_cases hp : pixels = 0
  · subst hp
    simp [Dbl.div, round_to_double, Dbl.invalid]
  · obtain ⟨m, s, hr, hm, _⟩ := round_to_double_spec false (pixels * 7149464408450662) 1
      (-48) (Nat.mul_pos (Nat.pos_of_ne_zero hp) (by norm_num)) (by norm_num)
    have hm0 : m ≠ 0 := by
      have : 0 < 2 ^ 52 := by positivity
      omega
    rw [hr, div_unsigned]
    simp [hm0, hp]

/-- Accuracy of the derived size: for a positive resolution the result is a
finite non-negative double within the fraction `2^-51` of the exact quotient
`pixels * 25.4 / dpi`. -/
theorem derived_mm_accuracy (pixels dpi : ℕ) (hdpi : 0 < dpi) :
    ∃ (m : ℕ) (e : ℤ), derived_mm pixels dpi = Dbl.fin false m e ∧
      |(m : ℚ) * (2 : ℚ) ^ e - (pixels : ℚ) * (254 / 10) / dpi|
        ≤ (pixels : ℚ) * (254 / 10) / dpi / 2 ^ 51 := by
  have hdq : (0 : ℚ) < dpi := by exact_mod_cast hdpi
  have hdne : dpi ≠ 0 := Nat.ne_of_gt hdpi
  unfold derived_mm Dbl.of_unsigned
  rw [MM_PER_INCH_eq, mul_unsigned]
  by_cases hp : pixels = 0
  · subst hp
    refine ⟨0, 0, ?_, ?_⟩
    · simp [Dbl.div, round_to_double, hdne]
    · simp
  · have hpq : (0 : ℚ) < pixels := by exact_mod_cast Nat.pos_of_ne_zero hp
    obtain ⟨m1, s1, hr1, hm1, _, herr1, hulp1⟩ := round_to_double_spec false
      (pixels * 7149464408450662) 1 (-48)
      (Nat.mul_pos (Nat.pos_of_ne_zero hp) (by norm_num)) (by norm_num)
    have hm1pos : 0 < m1 := by
      have : 0 < 2 ^ 52 := by positivity
      omega
    obtain ⟨m2, s2, hr2, _, _, herr2, hulp2⟩ := round_to_double_spec false m1 dpi
      (-48 + s1) hm1pos hdpi
    refine ⟨m2, -48 + s1 + s2, ?_, ?_⟩
    · rw [hr1, div_unsigned, if_neg hdne, hr2]
    · have two_ne : (2 : ℚ) ≠ 0 := by norm_num
      have hE : (2 : ℚ) ^ (-48 + s1 + s2)
          = (2 : ℚ) ^ s2 * (2 : ℚ) ^ s1 / 2 ^ 48 := by
        have : (-48 : ℤ) + s1 + s2 = s2 + s1 - 48 := by omega
        rw [this, zpow_sub₀ two_ne, zpow_add₀ two_ne]
        norm_num
      rw [hE]
      have ht1 : (0 : ℚ) < (2 : ℚ) ^ s1 := by positivity
      have ht2 : (0 : ℚ) < (2 : ℚ) ^ s2 := by positivity
      push_cast at herr1 hulp1
      rw [div_one] at herr1 hulp1
      generalize (2 : ℚ) ^ s1 = t1 at *
      generalize (2 : ℚ) ^ s2 = t2 at *
      generalize (m1 : ℚ) = M1 at *
      generalize (m2 : ℚ) = M2 at *
      generalize (pixels : ℚ) = px at *
      generalize (dpi : ℚ) = dp at *
      -- the rounded product, divided by the resolution
      have h1 : |M1 / dp * t1 - px / dp * 7149464408450662|
          ≤ px / dp * 7149464408450662 / 2 ^ 53 := by
        have e : M1 / dp * t1 - px / dp * 7149464408450662
            = (M1 * t1 - px * 7149464408450662) / dp := by field_simp
        rw [e, abs_div, abs_of_pos hdq, div_le_iff₀ hdq]
        have e2 : px / dp * 7149464408450662 / 2 ^ 53 * dp
            = px * 7149464408450662 / 2 ^ 53 := by field_simp; ring
        rw [e2]
        linarith
      -- the rounded quotient
      have h2 : |M2 * t2 * t1 - M1 / dp * t1| ≤ M1 / dp * t1 / 2 ^ 53 := by
        have e : M2 * t2 * t1 - M1 / dp * t1 = (M2 * t2 - M1 / dp) * t1 := by ring
        rw [e, abs_mul, abs_of_pos ht1]
        have : |M2 * t2 - M1 / dp| ≤ M1 / dp / 2 ^ 53 := by linarith
        calc |M2 * t2 - M1 / dp| * t1 ≤ M1 / dp / 2 ^ 53 * t1 :=
            mul_le_mul_of_nonneg_right this ht1.le
          _ = M1 / dp * t1 / 2 ^ 53 := by ring
      have hk : 0 ≤ px / dp := (div_pos hpq hdq).le
      have e3 : M2 * (t2 * t1 / 2 ^ 48) = M2 * t2 * t1 / 2 ^ 48 := by ring
      have e4 : px * (254 / 10) / dp = px / dp * (254 / 10) := by ring
      rw [e3, e4]
      generalize M2 * t2 * t1 = Z at *
      generalize M1 / dp * t1 = Y at *
      generalize px / dp = k at *
      rw [abs_le] at h1 h2 ⊢
      obtain ⟨h1a, h1b⟩ := h1
      obtain ⟨h2a, h2b⟩ := h2
      constructor <;> linarith

/-! ### Geometry -/

/-- The text printed for a derived size with a positive resolution is a
decimal with one digit after the point, within `0.05` (plus the rounding error
of the double arithmetic) of the exact quotient `pixels * 25.4 / dpi`. -/
theorem fmt_derived_mm (pixels dpi : ℕ) (hdpi : 0 < dpi) :
    ∃ t : ℕ, fmt_f1 (derived_mm pixels dpi) = Nat.repr (t / 10) ++ "." ++ Nat.repr (t % 10) ∧
      |(t : ℚ) / 10 - (pixels : ℚ) * (254 / 10) / dpi|
        ≤ 1 / 20 + (pixels : ℚ) * (254 / 10) / dpi / 2 ^ 51 := by
  obtain ⟨m, e, hv, hacc⟩ := derived_mm_accuracy pixels dpi hdpi
  refine ⟨tenths m e, ?_, ?_⟩
  · rw [hv]
    simp [fmt_f1]
  · have ht := tenths_spec m e
    have h1 : |(tenths m e : ℚ) / 10 - (m : ℚ) * (2 : ℚ) ^ e| ≤ 1 / 20 := by
      have e1 : (tenths m e : ℚ) / 10 - (m : ℚ) * (2 : ℚ) ^ e
          = ((tenths m e : ℚ) - 10 * ((m : ℚ) * (2 : ℚ) ^ e)) / 10 := by ring
      rw [e1, abs_div, abs_of_pos (by norm_num : (0 : ℚ) < 10)]
      linarith
    calc |(tenths m e : ℚ) / 10 - (pixels : ℚ) * (254 / 10) / dpi|
        = |((tenths m e : ℚ) / 10 - (m : ℚ) * (2 : ℚ) ^ e)
            + ((m : ℚ) * (2 : ℚ) ^ e - (pixels : ℚ) * (254 / 10) / dpi)| := by ring_nf
      _ ≤ |(tenths m e : ℚ) / 10 - (m : ℚ) * (2 : ℚ) ^ e|
            + |(m : ℚ) * (2 : ℚ) ^ e - (pixels : ℚ) * (254 / 10) / dpi| := abs_add _ _
      _ ≤ 1 / 20 + (pixels : ℚ) * (254 / 10) / dpi / 2 ^ 51 := add_le_add h1 hacc

/-- C10 (counterexample). For 812 pixels at 203 dpi with no override the width
printed in the SIZE command is "101.6" (812 / 203 is 4 inches, 101.6 mm), not
"101.5". -/
theorem C10_geometry_counterexample :
    ¬ (fmt_f1 (resolve_width_mm ⟨812, 1218, (203, 203), 1, 102⟩ (Dbl.fin false 0 0)) = "101.5") ∧
    (page_prologue ⟨812, 1218, (203, 203), 1, 102⟩ 1 8 4 (Dbl.fin false 0 0)
        (Dbl.fin false 0 0)).output.take 23 = txt "SIZE 101.6 mm,152.4 mm\n" := by
  decide

/-- C10 (as amended). With no override in effect (neither `label_width` nor
`label_height` is `> 0`) the SIZE command carries the derived sizes
`cupsWidth * 25.4 / HWResolution[0]` and `cupsHeight * 25.4 / HWResolution[1]`,
computed in double arithmetic and printed with one decimal place; for a
positive resolution the printed number is within `0.05 + q * 2^-51` of the
exact quotient `q = pixels * 25.4 / dpi`; for 812 pixels at 203 dpi it is
"101.6". -/
theorem C10_geometry_derivation (header : cups_page_header2_t) (page density speed : Int)
    (label_width label_height : Dbl)
    (hw : label_width.gt_zero = false) (hh : label_height.gt_zero = false) :
    (page_prologue header page density speed label_width label_height).output
      = txt ("SIZE " ++ fmt_f1 (derived_mm header.cupsWidth header.HWResolution.1) ++ " mm,"
            ++ fmt_f1 (derived_mm header.cupsHeight header.HWResolution.2) ++ " mm\n") ++
        txt ("GAP " ++ fmt_d DEFAULT_GAP ++ " mm,0\n") ++
        txt ("DENSITY " ++ fmt_d density ++ "\n") ++
        txt ("SPEED " ++ fmt_d speed ++ "\n") ++
        txt "DIRECTION 1\n" ++
        txt "CLS\n" ∧
    (∀ pixels dpi : ℕ, 0 < dpi →
      ∃ t : ℕ, fmt_f1 (derived_mm pixels dpi) = Nat.repr (t / 10) ++ "." ++ Nat.repr (t % 10) ∧
        |(t : ℚ) / 10 - (pixels : ℚ) * (254 / 10) / dpi|
          ≤ 1 / 20 + (pixels : ℚ) * (254 / 10) / dpi / 2 ^ 51) ∧
    fmt_f1 (derived_mm 812 203) = "101.6" := by
  refine ⟨?_, fmt_derived_mm, by decide⟩
  simp only [page_prologue, output_tspl_header, resolve_width_mm, resolve_height_mm, hw, hh,
    Bool.false_eq_true, if_false]

/-- C10, at an 812 x 1218 page at 203 dpi. -/
theorem C10_geometry_derivation_witness :
    (Dbl.fin false 0 0).gt_zero = false ∧
    (page_prologue ⟨812, 1218, (203, 203), 1, 102⟩ 1 8 4 (Dbl.fin false 0 0)
        (Dbl.fin false 0 0)).output
      = txt ("SIZE " ++ fmt_f1 (derived_mm 812 203) ++ " mm," ++
            fmt_f1 (derived_mm 1218 203) ++ " mm\n") ++
        txt ("GAP " ++ fmt_d DEFAULT_GAP ++ " mm,0\n") ++
        txt ("DENSITY " ++ fmt_d 8 ++ "\n") ++
        txt ("SPEED " ++ fmt_d 4 ++ "\n") ++
        txt "DIRECTION 1\n" ++
        txt "CLS\n" :=
  ⟨rfl, (C10_geometry_derivation ⟨812, 1218, (203, 203), 1, 102⟩ 1 8 4 (Dbl.fin false 0 0)
    (Dbl.fin false 0 0) rfl rfl).1⟩

theorem txt_append (a b : String) : txt (a ++ b) = txt a ++ txt b := by
  simp [txt, String.toList]

/-- C8 (counterexample). A page whose horizontal resolution is 0, with no
override: the conversion reports no error and emits a SIZE command whose width
is the infinity produced by the division by zero. -/
theorem C8_zero_dpi_counterexample :
    (convert_raster_to_tspl [⟨⟨8, 1, (0, 203), 1, 1⟩, [⟨1, [0x81]⟩]⟩] 8 4
        (Dbl.fin false 0 0) (Dbl.fin false 0 0)).map
        (fun s => (s.output, reports_error s))
      = some (txt ("SIZE inf mm,0.1 mm\nGAP 2 mm,0\nDENSITY 8\nSPEED 4\nDIRECTION 1\n" ++
                "CLS\nBITMAP 0,0,1,1,0,") ++ [0x81] ++ txt "\nPRINT 1\n", false) := by
  decide

/-- C8 (as amended). A resolution of 0 is not rejected.  For every page the
prologue of the page loop reports no error and its output opens every
converted page; when the horizontal resolution is 0 and `label_width` is not
`> 0`, `width_mm` is the result of the division by zero, `+inf` (the NaN of
`0/0` when `cupsWidth` is 0 too), and that value is printed in the SIZE
command, as `inf` (as `-nan` for the NaN, whose sign bit is set on x86-64);
symmetrically for the vertical resolution and `height_mm`. -/
theorem C8_zero_dpi_not_rejected (header : cups_page_header2_t) (page density speed : Int)
    (label_width label_height : Dbl) :
    reports_error (page_prologue header page density speed label_width label_height) = false ∧
    (∀ reads out,
      convert_page ⟨header, reads⟩ page density speed label_width label_height = some out →
      (page_prologue header page density speed label_width label_height).output
        <+: out.output) ∧
    (header.HWResolution.1 = 0 → label_width.gt_zero = false →
      resolve_width_mm header label_width
        = (if header.cupsWidth = 0 then Dbl.nan true else Dbl.inf false) ∧
      ∃ rest, (page_prologue header page density speed label_width label_height).output
        = txt "SIZE " ++ txt (if header.cupsWidth = 0 then "-nan" else "inf") ++ txt " mm," ++
          rest) ∧
    (header.HWResolution.2 = 0 → label_height.gt_zero = false →
      resolve_height_mm header label_height
        = (if header.cupsHeight = 0 then Dbl.nan true else Dbl.inf false) ∧
      ∃ rest, (page_prologue header page density speed label_width label_height).output
        = txt "SIZE " ++ txt (fmt_f1 (resolve_width_mm header label_width)) ++ txt " mm," ++
          txt (if header.cupsHeight = 0 then "-nan" else "inf") ++ txt " mm\n" ++ rest) := by
  have hout : (page_prologue header page density speed label_width label_height).output
      = txt "SIZE " ++ txt (fmt_f1 (resolve_width_mm header label_width)) ++ txt " mm," ++
          txt (fmt_f1 (resolve_height_mm header label_height)) ++ txt " mm\n" ++
        (txt ("GAP " ++ fmt_d DEFAULT_GAP ++ " mm,0\n") ++
         txt ("DENSITY " ++ fmt_d density ++ "\n") ++
         txt ("SPEED " ++ fmt_d speed ++ "\n") ++ txt "DIRECTION 1\n" ++ txt "CLS\n") := by
    simp only [page_prologue, output_tspl_header, txt_append, List.append_assoc]
  obtain ⟨tail, htail⟩ : ∃ tail,
      (page_prologue header page density speed label_width label_height).output
        = txt "SIZE " ++ txt (fmt_f1 (resolve_width_mm header label_width)) ++ txt " mm," ++
            txt (fmt_f1 (resolve_height_mm header label_height)) ++ txt " mm\n" ++ tail :=
    ⟨_, hout⟩
  refine ⟨page_prologue_no_error header page density speed label_width label_height, ?_, ?_, ?_⟩
  · intro reads out h
    unfold convert_page at h
    cases hb : output_bitmap_data header reads with
    | none => simp [hb] at h
    | some r =>
      simp only [hb, Option.some.injEq] at h
      subst h
      exact ⟨_, rfl⟩
  · intro hres hlw
    have hv : resolve_width_mm header label_width
        = (if header.cupsWidth = 0 then Dbl.nan true else Dbl.inf false) := by
      simp only [resolve_width_mm, hlw, Bool.false_eq_true, if_false, hres,
        derived_mm_zero_dpi]
    refine ⟨hv, txt (fmt_f1 (resolve_height_mm header label_height)) ++ txt " mm\n" ++ tail,
      ?_⟩
    rw [htail, hv]
    by_cases h0 : header.cupsWidth = 0 <;> simp [h0, fmt_f1, List.append_assoc]
  · intro hres hlh
    have hv : resolve_height_mm header label_height
        = (if header.cupsHeight = 0 then Dbl.nan true else Dbl.inf false) := by
      simp only [resolve_height_mm, hlh, Bool.false_eq_true, if_false, hres,
        derived_mm_zero_dpi]
    refine ⟨hv, tail, ?_⟩
    rw [htail, hv]
    by_cases h0 : header.cupsHeight = 0 <;> simp [h0, fmt_f1, List.append_assoc]

/-- C8, at an 812 x 1218 page whose horizontal resolution is 0, and at a page
of width 0 whose horizontal resolution is 0. -/
theorem C8_zero_dpi_not_rejected_witness :
    (⟨812, 1218, (0, 203), 1, 102⟩ : cups_page_header2_t).HWResolution.1 = 0 ∧
    (Dbl.fin false 0 0).gt_zero = false ∧
    resolve_width_mm ⟨812, 1218, (0, 203), 1, 102⟩ (Dbl.fin false 0 0) = Dbl.inf false ∧
    reports_error (page_prologue ⟨812, 1218, (0, 203), 1, 102⟩ 1 8 4 (Dbl.fin false 0 0)
      (Dbl.fin false 0 0)) = false ∧
    resolve_width_mm ⟨0, 1218, (0, 203), 1, 0⟩ (Dbl.fin false 0 0) = Dbl.nan true ∧
    (page_prologue ⟨0, 1218, (0, 203), 1, 0⟩ 1 8 4 (Dbl.fin false 0 0)
      (Dbl.fin false 0 0)).output.take 22 = txt "SIZE -nan mm,152.4 mm\n" :=
  ⟨rfl, rfl,
   ((C8_zero_dpi_not_rejected ⟨812, 1218, (0, 203), 1, 102⟩ 1 8 4 (Dbl.fin false 0 0)
      (Dbl.fin false 0 0)).2.2.1 rfl rfl).1,
   (C8_zero_dpi_not_rejected ⟨812, 1218, (0, 203), 1, 102⟩ 1 8 4 (Dbl.fin false 0 0)
      (Dbl.fin false 0 0)).1,
   ((C8_zero_dpi_not_rejected ⟨0, 1218, (0, 203), 1, 0⟩ 1 8 4 (Dbl.fin false 0 0)
      (Dbl.fin false 0 0)).2.2.1 rfl rfl).1,
   by decide⟩

/-! ### Overrides and options -/

/-- A double whose value is 50 prints as "50.0" under `%.1f`. -/
theorem fmt_f1_fifty (m : ℕ) (e : ℤ) (h : (m : ℚ) * (2 : ℚ) ^ e = 50) :
    fmt_f1 (Dbl.fin false m e) = "50.0" := by
  have ht := tenths_spec m e
  rw [h] at ht
  have h500 : tenths m e = 500 := by
    have h1 : |(tenths m e : ℚ) - 500| * 2 ≤ 1 := by
      have e1 : (10 : ℚ) * 50 = 500 := by norm_num
      rw [e1] at ht
      exact ht
    have h2 := abs_le.mp (by linarith : |(tenths m e : ℚ) - 500| ≤ 1 / 2)
    have h3 : (499 : ℚ) < (tenths m e : ℚ) := by linarith [h2.1]
    have h4 : (tenths m e : ℚ) < 501 := by linarith [h2.2]
    have h5 : 499 < tenths m e := by exact_mod_cast h3
    have h6 : tenths m e < 501 := by exact_mod_cast h4
    omega
  simp only [fmt_f1, h500]
  decide

/-- C11. Override precedence: a label-width override that is `> 0` is the
width used for the SIZE command, whatever `cupsWidth` and the horizontal
resolution are (0 included); symmetrically for the height override; an
override that is not `> 0` falls back to the derived value; an override of
value 50.0 is printed as "50.0". -/
theorem C11_override_precedence (header : cups_page_header2_t) (page density speed : Int)
    (label_width label_height : Dbl) :
    (label_width.gt_zero = true → resolve_width_mm header label_width = label_width) ∧
    (label_height.gt_zero = true → resolve_height_mm header label_height = label_height) ∧
    (label_width.gt_zero = false →
      resolve_width_mm header label_width
        = derived_mm header.cupsWidth header.HWResolution.1) ∧
    (label_height.gt_zero = false →
      resolve_height_mm header label_height
        = derived_mm header.cupsHeight header.HWResolution.2) ∧
    (∃ rest, (page_prologue header page density speed label_width label_height).output
      = txt "SIZE " ++ txt (fmt_f1 (resolve_width_mm header label_width)) ++ txt " mm," ++
          txt (fmt_f1 (resolve_height_mm header label_height)) ++ txt " mm\n" ++ rest) ∧
    (∀ (m : ℕ) (e : ℤ), (m : ℚ) * (2 : ℚ) ^ e = 50 →
      (Dbl.fin false m e).gt_zero = true ∧
      fmt_f1 (resolve_width_mm header (Dbl.fin false m e)) = "50.0" ∧
      fmt_f1 (resolve_height_mm header (Dbl.fin false m e)) = "50.0") := by
  refine ⟨?_, ?_, ?_, ?_, ?_, ?_⟩
  · intro h; simp [resolve_width_mm, h]
  · intro h; simp [resolve_height_mm, h]
  · intro h; simp [resolve_width_mm, h]
  · intro h; simp [resolve_height_mm, h]
  · refine ⟨txt ("GAP " ++ fmt_d DEFAULT_GAP ++ " mm,0\n") ++
      txt ("DENSITY " ++ fmt_d density ++ "\n") ++ txt ("SPEED " ++ fmt_d speed ++ "\n") ++
      txt "DIRECTION 1\n" ++ txt "CLS\n", ?_⟩
    simp only [page_prologue, output_tspl_header, txt_append, List.append_assoc]
  · intro m e h
    have hm : 0 < m := by
      rcases Nat.eq_zero_or_pos m with h0 | h0
      · rw [h0] at h; norm_num at h
      · exact h0
    have hg : (Dbl.fin false m e).gt_zero = true := by simp [Dbl.gt_zero, hm]
    refine ⟨hg, ?_, ?_⟩
    · simp only [resolve_width_mm, hg, if_true]; exact fmt_f1_fifty m e h
    · simp only [resolve_height_mm, hg, if_true]; exact fmt_f1_fifty m e h

/-- C11, at a page whose resolution is 0 with both overrides 50.0. -/
theorem C11_override_precedence_witness :
    (Dbl.fin false 50 0).gt_zero = true ∧
    resolve_width_mm ⟨812, 1218, (0, 0), 1, 102⟩ (Dbl.fin false 50 0) = Dbl.fin false 50 0 ∧
    resolve_height_mm ⟨812, 1218, (0, 0), 1, 102⟩ (Dbl.fin false 50 0) = Dbl.fin false 50 0 ∧
    fmt_f1 (resolve_width_mm ⟨812, 1218, (0, 0), 1, 102⟩ (Dbl.fin false 25 1)) = "50.0" :=
  ⟨rfl,
   (C11_override_precedence ⟨812, 1218, (0, 0), 1, 102⟩ 1 8 4 (Dbl.fin false 50 0)
      (Dbl.fin false 50 0)).1 rfl,
   (C11_override_precedence ⟨812, 1218, (0, 0), 1, 102⟩ 1 8 4 (Dbl.fin false 50 0)
      (Dbl.fin false 50 0)).2.1 rfl,
   ((C11_override_precedence ⟨812, 1218, (0, 0), 1, 102⟩ 1 8 4 (Dbl.fin false 50 0)
      (Dbl.fin false 50 0)).2.2.2.2.2 25 1 (by norm_num)).2.1⟩

/-- The density after `parse_options`. -/
theorem parse_options_density (cupsGetOption : String → Option String)
    (atoi : String → Int) (strtod : String → Dbl) (p : job_params) :
    (parse_options cupsGetOption atoi strtod p).1.density
      = match cupsGetOption "density" with
        | some val => if atoi val ≥ 1 ∧ atoi val ≤ 15 then atoi val else p.density
        | none => p.density := by
  unfold parse_options
  cases cupsGetOption "density" <;> cases cupsGetOption "speed" <;>
    cases cupsGetOption "label-width" <;> cases cupsGetOption "label-height" <;>
    cases cupsGetOption "rotate" <;> dsimp only <;> (try split_ifs) <;> rfl

/-- The speed after `parse_options`. -/
theorem parse_options_speed (cupsGetOption : String → Option String)
    (atoi : String → Int) (strtod : String → Dbl) (p : job_params) :
    (parse_options cupsGetOption atoi strtod p).1.speed
      = match cupsGetOption "speed" with
        | some val => if atoi val ≥ 1 ∧ atoi val ≤ 6 then atoi val else p.speed
        | none => p.speed := by
  unfold parse_options
  cases cupsGetOption "density" <;> cases cupsGetOption "speed" <;>
    cases cupsGetOption "label-width" <;> cases cupsGetOption "label-height" <;>
    cases cupsGetOption "rotate" <;> dsimp only <;> (try split_ifs) <;> rfl

/-- The warnings written by `parse_options`. -/
theorem parse_options_warnings (cupsGetOption : String → Option String)
    (atoi : String → Int) (strtod : String → Dbl) (p : job_params) :
    (parse_options cupsGetOption atoi strtod p).2
      = (match cupsGetOption "density" with
          | some val =>
            if atoi val ≥ 1 ∧ atoi val ≤ 15 then []
            else ["WARNING: Invalid density " ++ fmt_d (atoi val) ++ ", using default " ++
                    fmt_d DEFAULT_DENSITY ++ "\n"]
          | none => []) ++
        (match cupsGetOption "speed" with
          | some val =>
            if atoi val ≥ 1 ∧ atoi val ≤ 6 then []
            else ["WARNING: Invalid speed " ++ fmt_d (atoi val) ++ ", using default " ++
                    fmt_d DEFAULT_SPEED ++ "\n"]
          | none => []) := by
  unfold parse_options
  cases cupsGetOption "density" <;> cases cupsGetOption "speed" <;>
    cases cupsGetOption "label-width" <;> cases cupsGetOption "label-height" <;>
    cases cupsGetOption "rotate" <;> dsimp only <;> (try split_ifs) <;> simp

/-- C17. Job parameter ranges: starting from the defaults of `main` (density
8, speed 4), after `parse_options` the density lies in 1..15 and the speed in
1..6, whatever the options hold: a parsed value in range is used as given, a
parsed value out of range leaves the default in place and is reported by the
warning that names the default, and an absent option keeps the default. -/
theorem C17_job_parameter_ranges (cupsGetOption : String → Option String)
    (atoi : String → Int) (strtod : String → Dbl) :
    (1 ≤ (parse_options cupsGetOption atoi strtod main_defaults).1.density ∧
      (parse_options cupsGetOption atoi strtod main_defaults).1.density ≤ 15) ∧
    (1 ≤ (parse_options cupsGetOption atoi strtod main_defaults).1.speed ∧
      (parse_options cupsGetOption atoi strtod main_defaults).1.speed ≤ 6) ∧
    (∀ val, cupsGetOption "density" = some val → 1 ≤ atoi val → atoi val ≤ 15 →
      (parse_options cupsGetOption atoi strtod main_defaults).1.density = atoi val) ∧
    (∀ val, cupsGetOption "density" = some val → ¬ (1 ≤ atoi val ∧ atoi val ≤ 15) →
      (parse_options cupsGetOption atoi strtod main_defaults).1.density = 8 ∧
      ("WARNING: Invalid density " ++ fmt_d (atoi val) ++ ", using default 8\n")
        ∈ (parse_options cupsGetOption atoi strtod main_defaults).2) ∧
    (cupsGetOption "density" = none →
      (parse_options cupsGetOption atoi strtod main_defaults).1.density = 8) ∧
    (∀ val, cupsGetOption "speed" = some val → 1 ≤ atoi val → atoi val ≤ 6 →
      (parse_options cupsGetOption atoi strtod main_defaults).1.speed = atoi val) ∧
    (∀ val, cupsGetOption "speed" = some val → ¬ (1 ≤ atoi val ∧ atoi val ≤ 6) →
      (parse_options cupsGetOption atoi strtod main_defaults).1.speed = 4 ∧
      ("WARNING: Invalid speed " ++ fmt_d (atoi val) ++ ", using default 4\n")
        ∈ (parse_options cupsGetOption atoi strtod main_defaults).2) ∧
    (cupsGetOption "speed" = none →
      (parse_options cupsGetOption atoi strtod main_defaults).1.speed = 4) := by
  have hd8 : fmt_d DEFAULT_DENSITY = "8" := by decide
  have hs4 : fmt_d DEFAULT_SPEED = "4" := by decide
  have hD := parse_options_density cupsGetOption atoi strtod main_defaults
  have hS := parse_options_speed cupsGetOption atoi strtod main_defaults
  have hW := parse_options_warnings cupsGetOption atoi strtod main_defaults
  have hdd : main_defaults.density = 8 := rfl
  have hds : main_defaults.speed = 4 := rfl
  rw [hdd] at hD
  rw [hds] at hS
  rw [hd8, hs4] at hW
  have e8 : ∀ s : String, s ++ ", using default " ++ "8" ++ "\n" = s ++ ", using default 8\n" := by
    intro s
    rw [String.append_assoc, String.append_assoc]
    rfl
  have e4 : ∀ s : String, s ++ ", using default " ++ "4" ++ "\n" = s ++ ", using default 4\n" := by
    intro s
    rw [String.append_assoc, String.append_assoc]
    rfl
  refine ⟨?_, ?_, ?_, ?_, ?_, ?_, ?_, ?_⟩
  · rw [hD]
    cases cupsGetOption "density" with
    | none => simp
    | some val => dsimp only; split_ifs with h <;> omega
  · rw [hS]
    cases cupsGetOption "speed" with
    | none => simp
    | some val => dsimp only; split_ifs with h <;> omega
  · intro val hv h1 h2
    rw [hD, hv]
    simp [h1, h2]
  · intro val hv hn
    rw [hD, hW, hv]
    refine ⟨by simp [hn], ?_⟩
    apply List.mem_append_left
    simp [hn, e8]
  · intro hv
    rw [hD, hv]
  · intro val hv h1 h2
    rw [hS, hv]
    simp [h1, h2]
  · intro val hv hn
    rw [hS, hW, hv]
    refine ⟨by simp [hn], ?_⟩
    apply List.mem_append_right
    simp [hn, e4]
  · intro hv
    rw [hS, hv]

/-- C17, at the options density=12 and speed=9. -/
theorem C17_job_parameter_ranges_witness :
    (parse_options (fun name => if name = "density" then some "12"
        else if name = "speed" then some "9" else none)
      (fun val => if val = "12" then 12 else 9) (fun _ => Dbl.nan false) main_defaults).1.density
      = 12 ∧
    (parse_options (fun name => if name = "density" then some "12"
        else if name = "speed" then some "9" else none)
      (fun val => if val = "12" then 12 else 9) (fun _ => Dbl.nan false) main_defaults).1.speed
      = 4 :=
  ⟨(C17_job_parameter_ranges (fun name => if name = "density" then some "12"
        else if name = "speed" then some "9" else none)
      (fun val => if val = "12" then 12 else 9) (fun _ => Dbl.nan false)).2.2.1 "12" (by decide)
      (by decide) (by decide),
   ((C17_job_parameter_ranges (fun name => if name = "density" then some "12"
        else if name = "speed" then some "9" else none)
      (fun val => if val = "12" then 12 else 9) (fun _ => Dbl.nan false)).2.2.2.2.2.2.1 "9"
      (by decide) (by decide)).1⟩

/-! ### What a converted line can contain -/

theorem set_bit_eq_some (packed next : List Nat) (byte_pos bit : Nat)
    (h : set_bit packed byte_pos bit = some next) :
    ∃ hlt : byte_pos < packed.length,
      next = packed.set byte_pos ((packed[byte_pos] ||| 1 <<< bit) % 256) := by
  by_cases hlt : byte_pos < packed.length
  · rw [set_bit_some packed byte_pos bit hlt] at h
    exact ⟨hlt, (Option.some.inj h).symm⟩
  · rw [set_bit_none packed byte_pos bit (by omega)] at h
    cases h

/-- Whatever the `x` loop returns has the length of the line it started from,
and every bit set in it was set before or belongs to a visited column whose
decision is ink. -/
theorem pixel_loop_sound (pixel_at : Nat → Option Bool) :
    ∀ (n x : Nat) (packed out : List Nat), pixel_loop pixel_at n x packed = some out →
      out.length = packed.length ∧
      ∀ y, line_bit out y = true →
        line_bit packed y = true ∨ (x ≤ y ∧ y < x + n ∧ pixel_at y = some true) := by
  intro n
  induction n with
  | zero =>
    intro x packed out h
    simp only [pixel_loop, Option.some.injEq] at h
    subst h
    exact ⟨rfl, fun y hy => Or.inl hy⟩
  | succ n ih =>
    intro x packed out h
    rw [pixel_loop] at h
    cases hs : pack_step pixel_at packed x with
    | none => simp [hs] at h
    | some next =>
      simp only [hs] at h
      obtain ⟨hl, hb⟩ := ih (x + 1) next out h
      unfold pack_step at hs
      cases hp : pixel_at x with
      | none => simp [hp] at hs
      | some pixel =>
        simp only [hp] at hs
        cases pixel with
        | false =>
          simp only [Bool.false_eq_true, if_false, Option.some.injEq] at hs
          subst hs
          refine ⟨hl, fun y hy => ?_⟩
          rcases hb y hy with h1 | ⟨h1, h2, h3⟩
          · exact Or.inl h1
          · exact Or.inr ⟨by omega, by omega, h3⟩
        | true =>
          simp only [if_true] at hs
          obtain ⟨hlt, hnext⟩ := set_bit_eq_some packed next (x / 8) (7 - x % 8) hs
          subst hnext
          refine ⟨by rw [hl, List.length_set], fun y hy => ?_⟩
          rcases hb y hy with h1 | ⟨h1, h2, h3⟩
          · rw [line_bit_set packed x y hlt] at h1
            simp only [Bool.or_eq_true, decide_eq_true_eq] at h1
            rcases h1 with h1 | h1
            · exact Or.inl h1
            · subst h1
              exact Or.inr ⟨le_refl _, by omega, hp⟩
          · exact Or.inr ⟨by omega, by omega, h3⟩

/-- The `x` loop consults the decisions of the columns it visits only. -/
theorem pixel_loop_congr (f g : Nat → Option Bool) :
    ∀ (n x : Nat) (packed : List Nat), (∀ i, x ≤ i → i < x + n → f i = g i) →
      pixel_loop f n x packed = pixel_loop g n x packed := by
  intro n
  induction n with
  | zero => intro x packed _; rfl
  | succ n ih =>
    intro x packed h
    have hx : f x = g x := h x (le_refl x) (by omega)
    have hstep : pack_step f packed x = pack_step g packed x := by
      unfold pack_step; rw [hx]
    rw [pixel_loop, pixel_loop, hstep]
    cases pack_step g packed x with
    | none => rfl
    | some next => exact ih (x + 1) next (fun i h1 h2 => h i (by omega) (by omega))

/-- A converted scanline has `width_bytes` bytes, and each of its set bits is
the ink decision of a pixel below `cupsWidth`. -/
theorem convert_line_sound (header : cups_page_header2_t) (line_buffer packed : List Nat)
    (h : convert_line header line_buffer = some packed) :
    packed.length = width_bytes header ∧
    ∀ y, line_bit packed y = true →
      y < header.cupsWidth ∧ decode_pixel header line_buffer y = some true := by
  unfold convert_line pack_line at h
  obtain ⟨hl, hb⟩ := pixel_loop_sound _ _ _ _ _ h
  refine ⟨by simpa using hl, fun y hy => ?_⟩
  rcases hb y hy with h1 | ⟨_, h2, h3⟩
  · rw [line_bit_replicate_zero] at h1
    cases h1
  · exact ⟨by omega, h3⟩

/-- C16. Padding bits are background: for every pixel format and every
scanline content, a packed line has no bit set at a position `idx ≥ W`; so when
`W` is not a multiple of 8 the low `8 - W % 8` bits of its final byte (byte
`W / 8`) are 0.  The packed line depends on the decisions of the pixels
`0 .. W-1` only, whatever the source holds beyond them, and it exists whenever
these pixels decode and `W + 7` does not wrap. -/
theorem C16_padding_bits_zero (header : cups_page_header2_t) (line_buffer : List Nat) :
    (∀ packed, convert_line header line_buffer = some packed →
      packed.length = width_bytes header ∧
      (∀ idx, header.cupsWidth ≤ idx → line_bit packed idx = false) ∧
      (header.cupsWidth % 8 ≠ 0 → ∀ j, j < 8 - header.cupsWidth % 8 →
        (packed[header.cupsWidth / 8]?.getD 0).testBit j = false)) ∧
    (∀ other : List Nat,
      (∀ x, x < header.cupsWidth →
        decode_pixel header other x = decode_pixel header line_buffer x) →
      convert_line header other = convert_line header line_buffer) ∧
    (header.cupsWidth + 7 < UINT_MOD →
      (∀ x, x < header.cupsWidth → ∃ b, decode_pixel header line_buffer x = some b) →
      ∃ packed, convert_line header line_buffer = some packed) := by
  refine ⟨?_, ?_, ?_⟩
  · intro packed h
    obtain ⟨hl, hb⟩ := convert_line_sound header line_buffer packed h
    have hzero : ∀ idx, header.cupsWidth ≤ idx → line_bit packed idx = false := by
      intro idx hidx
      cases hc : line_bit packed idx with
      | false => rfl
      | true =>
        have := (hb idx hc).1
        omega
    refine ⟨hl, hzero, ?_⟩
    intro hw j hj
    have hz := hzero (8 * (header.cupsWidth / 8) + (7 - j)) (by omega)
    unfold line_bit at hz
    have e1 : (8 * (header.cupsWidth / 8) + (7 - j)) / 8 = header.cupsWidth / 8 := by omega
    have e2 : 7 - (8 * (header.cupsWidth / 8) + (7 - j)) % 8 = j := by omega
    rw [e1, e2] at hz
    exact hz
  · intro other h
    unfold convert_line pack_line
    exact pixel_loop_congr _ _ _ _ _ (fun i _ hi => h i (by omega))
  · intro hw hdec
    obtain ⟨out, ho, _⟩ := convert_line_spec header line_buffer
      (fun x => (decode_pixel header line_buffer x).getD false) hw
      (fun i hi => by obtain ⟨b, hb⟩ := hdec i hi; simp [hb])
    exact ⟨out, ho⟩

/-- C16, at a 10-pixel grayscale scanline followed by two dark bytes that lie
beyond the last pixel. -/
theorem C16_padding_bits_zero_witness :
    convert_line ⟨10, 1, (203, 203), 8, 12⟩ [0, 0, 0, 0, 0, 0, 0, 0, 0, 0, 0, 0]
      = some [0xFF, 0xC0] ∧
    (∀ j, j < 8 - 10 % 8 → (([0xFF, 0xC0] : List Nat)[10 / 8]?.getD 0).testBit j = false) :=
  ⟨by decide,
   ((C16_padding_bits_zero ⟨10, 1, (203, 203), 8, 12⟩
      [0, 0, 0, 0, 0, 0, 0, 0, 0, 0, 0, 0]).1 [0xFF, 0xC0] (by decide)).2.2 (by decide)⟩

/-! ### Payload and command sequence -/

/-- The packed lines of converted scanlines all have `width_bytes` bytes, so
their concatenation has `width_bytes * k` bytes. -/
theorem flatten_length_lines (header : cups_page_header2_t) :
    ∀ (done : List pixel_read) (lines : List (List Nat)),
      List.Forall₂
        (fun rd l => 1 ≤ rd.count ∧ convert_line header rd.line_buffer = some l) done lines →
      lines.length = done.length ∧
      lines.flatten.length = width_bytes header * done.length := by
  intro done lines h
  induction h with
  | nil => simp
  | @cons rd l done lines hrl _ ih =>
    obtain ⟨hl, _⟩ := convert_line_sound header rd.line_buffer l hrl.2
    obtain ⟨ih1, ih2⟩ := ih
    refine ⟨by simp [ih1], ?_⟩
    rw [List.flatten_cons, List.length_append, ih2, hl, List.length_cons, Nat.mul_succ]
    omega

/-- C18. Payload length: when `k ≤ cupsHeight` scanlines are read and converted
and the loop then ends (all `cupsHeight` lines done, the source exhausted, or a
read returning less than 1), the bytes between the BITMAP header and the
trailing newline are the `k` packed lines and number exactly
`width_bytes * k`; for a page read in full this is `width_bytes * cupsHeight`,
the product of the two fields declared in the header. -/
theorem C18_payload_length (header : cups_page_header2_t) (done rest : List pixel_read)
    (lines : List (List Nat))
    (hdone : List.Forall₂
      (fun rd l => 1 ≤ rd.count ∧ convert_line header rd.line_buffer = some l) done lines)
    (hk : done.length ≤ header.cupsHeight)
    (hstop : done.length = header.cupsHeight ∨ rest = [] ∨
      ∃ r tail, rest = r :: tail ∧ r.count < 1) :
    (∃ err left, output_bitmap_data header (done ++ rest)
      = some (⟨txt ("BITMAP 0,0," ++ fmt_u (width_bytes header) ++ "," ++
                 fmt_u header.cupsHeight ++ ",0,") ++ lines.flatten ++ txt "\n", err⟩, left)) ∧
    lines.flatten.length = width_bytes header * done.length ∧
    (done.length = header.cupsHeight →
      lines.flatten.length = width_bytes header * header.cupsHeight) := by
  obtain ⟨_, hlen⟩ := flatten_length_lines header done lines hdone
  refine ⟨?_, hlen, fun h => by rw [hlen, h]⟩
  have hloop := scanline_loop_lines header rest done lines header.cupsHeight 0 hdone hk
  unfold output_bitmap_data
  rw [hloop]
  rcases Nat.eq_zero_or_pos (header.cupsHeight - done.length) with h0 | hpos
  · rw [h0]
    exact ⟨[], rest, by simp [scanline_loop]⟩
  · obtain ⟨m, hm⟩ : ∃ m, header.cupsHeight - done.length = m + 1 :=
      ⟨header.cupsHeight - done.length - 1, by omega⟩
    rw [hm]
    rcases hstop with h | h | ⟨r, tail, h, hr⟩
    · omega
    · subst h
      exact ⟨["ERROR: Unable to read line " ++ fmt_u (0 + done.length) ++ "\n"], [],
        by simp [scanline_loop]⟩
    · subst h
      exact ⟨["ERROR: Unable to read line " ++ fmt_u (0 + done.length) ++ "\n"], tail,
        by simp [scanline_loop, hr]⟩

/-- C18, at a page of height 3 of which two scanlines are read. -/
theorem C18_payload_length_witness :
    (∃ err left, output_bitmap_data ⟨12, 3, (203, 203), 1, 2⟩
        ([⟨2, [0xF0, 0x0F]⟩, ⟨2, [0xAA, 0xFF]⟩] ++ [])
      = some (⟨txt ("BITMAP 0,0," ++ fmt_u (width_bytes ⟨12, 3, (203, 203), 1, 2⟩) ++ "," ++
                 fmt_u 3 ++ ",0,") ++ [[0xF0, 0x00], [0xAA, 0xF0]].flatten ++ txt "\n", err⟩,
              left)) ∧
    ([[0xF0, 0x00], [0xAA, 0xF0]] : List (List Nat)).flatten.length
      = width_bytes ⟨12, 3, (203, 203), 1, 2⟩ * 2 :=
  ⟨(C18_payload_length ⟨12, 3, (203, 203), 1, 2⟩ [⟨2, [0xF0, 0x0F]⟩, ⟨2, [0xAA, 0xFF]⟩] []
      [[0xF0, 0x00], [0xAA, 0xF0]]
      (List.Forall₂.cons ⟨by decide, by decide⟩
        (List.Forall₂.cons ⟨by decide, by decide⟩ List.Forall₂.nil))
      (by decide) (Or.inr (Or.inl rfl))).1,
   (C18_payload_length ⟨12, 3, (203, 203), 1, 2⟩ [⟨2, [0xF0, 0x0F]⟩, ⟨2, [0xAA, 0xFF]⟩] []
      [[0xF0, 0x00], [0xAA, 0xF0]]
      (List.Forall₂.cons ⟨by decide, by decide⟩
        (List.Forall₂.cons ⟨by decide, by decide⟩ List.Forall₂.nil))
      (by decide) (Or.inr (Or.inl rfl))).2.1⟩

/-- The output of one page that is read in full, in the words of the
specification. -/
theorem convert_page_full (p : raster_page) (lines : List (List Nat))
    (page density speed : Int) (label_width label_height : Dbl)
    (hfull : p.reads.length = p.header.cupsHeight)
    (hreads : List.Forall₂
      (fun rd l => 1 ≤ rd.count ∧ convert_line p.header rd.line_buffer = some l)
      p.reads lines) :
    ∃ s, convert_page p page density speed label_width label_height = some s ∧
      s.output = spec_page_output (fmt_f1 (resolve_width_mm p.header label_width))
        (fmt_f1 (resolve_height_mm p.header label_height)) density speed
        (width_bytes p.header) p.header.cupsHeight lines := by
  have hout := output_bitmap_data_full p.header p.reads lines hreads hfull
  have hgap : txt "GAP " ++ txt (fmt_d DEFAULT_GAP) ++ txt " mm,0\n" = txt "GAP 2 mm,0\n" := by
    decide
  refine ⟨_, by simp only [convert_page, hout]; rfl, ?_⟩
  simp only [Streams.append, page_prologue, output_tspl_header, spec_page_output, txt_append,
    List.append_assoc, List.append_nil]
  rw [← List.append_assoc (txt "GAP ") (txt (fmt_d DEFAULT_GAP)),
    ← List.append_assoc (txt "GAP " ++ txt (fmt_d DEFAULT_GAP)), hgap]

/-- The BITMAP command of a page of which the scanlines `done` are read and
converted before the loop ends (all `cupsHeight` lines done, the source
exhausted, or a read returning less than 1). -/
theorem output_bitmap_data_run (header : cups_page_header2_t) (done rest : List pixel_read)
    (lines : List (List Nat))
    (hdone : List.Forall₂
      (fun rd l => 1 ≤ rd.count ∧ convert_line header rd.line_buffer = some l) done lines)
    (hk : done.length ≤ header.cupsHeight)
    (hstop : done.length = header.cupsHeight ∨ rest = [] ∨
      ∃ r tail, rest = r :: tail ∧ r.count < 1) :
    ∃ err left, output_bitmap_data header (done ++ rest)
      = some (⟨txt ("BITMAP 0,0," ++ fmt_u (width_bytes header) ++ "," ++
                 fmt_u header.cupsHeight ++ ",0,") ++ lines.flatten ++ txt "\n", err⟩, left) := by
  have hloop := scanline_loop_lines header rest done lines header.cupsHeight 0 hdone hk
  unfold output_bitmap_data
  rw [hloop]
  rcases Nat.eq_zero_or_pos (header.cupsHeight - done.length) with h0 | hpos
  · rw [h0]
    exact ⟨[], rest, by simp [scanline_loop]⟩
  · obtain ⟨m, hm⟩ : ∃ m, header.cupsHeight - done.length = m + 1 :=
      ⟨header.cupsHeight - done.length - 1, by omega⟩
    rw [hm]
    rcases hstop with h | h | ⟨r, tail, h, hr⟩
    · omega
    · subst h
      exact ⟨["ERROR: Unable to read line " ++ fmt_u (0 + done.length) ++ "\n"], [],
        by simp [scanline_loop]⟩
    · subst h
      exact ⟨["ERROR: Unable to read line " ++ fmt_u (0 + done.length) ++ "\n"], tail,
        by simp [scanline_loop, hr]⟩

/-- The output of one page, read in full or not, in the words of the
specification: `lines` are the packed lines of the scanlines read before the
loop ends. -/
theorem convert_page_run (p : raster_page) (lines : List (List Nat))
    (page density speed : Int) (label_width label_height : Dbl)
    (hrun : ∃ done rest, p.reads = done ++ rest ∧
      List.Forall₂
        (fun rd l => 1 ≤ rd.count ∧ convert_line p.header rd.line_buffer = some l)
        done lines ∧
      done.length ≤ p.header.cupsHeight ∧
      (done.length = p.header.cupsHeight ∨ rest = [] ∨
        ∃ r tail, rest = r :: tail ∧ r.count < 1)) :
    ∃ s, convert_page p page density speed label_width label_height = some s ∧
      s.output = spec_page_output (fmt_f1 (resolve_width_mm p.header label_width))
        (fmt_f1 (resolve_height_mm p.header label_height)) density speed
        (width_bytes p.header) p.header.cupsHeight lines := by
  obtain ⟨done, rest, hsplit, hdone, hk, hstop⟩ := hrun
  obtain ⟨err, left, hout⟩ := output_bitmap_data_run p.header done rest lines hdone hk hstop
  rw [← hsplit] at hout
  have hgap : txt "GAP " ++ txt (fmt_d DEFAULT_GAP) ++ txt " mm,0\n" = txt "GAP 2 mm,0\n" := by
    decide
  refine ⟨_, by simp only [convert_page, hout]; rfl, ?_⟩
  simp only [Streams.append, page_prologue, output_tspl_header, spec_page_output, txt_append,
    List.append_assoc, List.append_nil]
  rw [← List.append_assoc (txt "GAP ") (txt (fmt_d DEFAULT_GAP)),
    ← List.append_assoc (txt "GAP " ++ txt (fmt_d DEFAULT_GAP)), hgap]

/-- The output of the page loop is the concatenation of the outputs of the
pages, whether they are read in full or not. -/
theorem page_loop_run (density speed : Int) (label_width label_height : Dbl) :
    ∀ (pages : List raster_page) (lines : List (List (List Nat))) (page : Int),
      List.Forall₂ (fun p ls => ∃ done rest, p.reads = done ++ rest ∧
        List.Forall₂
          (fun rd l => 1 ≤ rd.count ∧ convert_line p.header rd.line_buffer = some l)
          done ls ∧
        done.length ≤ p.header.cupsHeight ∧
        (done.length = p.header.cupsHeight ∨ rest = [] ∨
          ∃ r tail, rest = r :: tail ∧ r.count < 1)) pages lines →
      ∃ s, page_loop density speed label_width label_height page pages = some s ∧
        s.output = (List.zipWith (fun p ls =>
          spec_page_output (fmt_f1 (resolve_width_mm p.header label_width))
            (fmt_f1 (resolve_height_mm p.header label_height)) density speed
            (width_bytes p.header) p.header.cupsHeight ls) pages lines).flatten := by
  intro pages lines page h
  induction h generalizing page with
  | nil => exact ⟨_, rfl, rfl⟩
  | @cons p ls pages lines hp _ ih =>
    obtain ⟨s1, h1, o1⟩ := convert_page_run p ls (page + 1) density speed label_width
      label_height hp
    obtain ⟨s2, h2, o2⟩ := ih (page + 1)
    refine ⟨s1.append s2, by simp only [page_loop, h1, h2], ?_⟩
    simp only [Streams.append, o1, o2, List.zipWith_cons_cons, List.flatten_cons]

/-- Every sequence of reads whose buffers convert splits into the scanlines the
loop of `n` iterations reads and converts, and what is left when it ends. -/
theorem scanline_split (header : cups_page_header2_t) :
    ∀ (reads : List pixel_read) (n : Nat),
      (∀ r ∈ reads, ∃ l, convert_line header r.line_buffer = some l) →
      ∃ ls done rest, reads = done ++ rest ∧
        List.Forall₂
          (fun rd l => 1 ≤ rd.count ∧ convert_line header rd.line_buffer = some l) done ls ∧
        done.length ≤ n ∧
        (done.length = n ∨ rest = [] ∨ ∃ r tail, rest = r :: tail ∧ r.count < 1) := by
  intro reads
  induction reads with
  | nil =>
    intro n _
    exact ⟨[], [], [], rfl, List.Forall₂.nil, Nat.zero_le _, Or.inr (Or.inl rfl)⟩
  | cons r rs ih =>
    intro n h
    cases n with
    | zero => exact ⟨[], [], r :: rs, rfl, List.Forall₂.nil, Nat.le_refl _, Or.inl rfl⟩
    | succ m =>
      by_cases hc : r.count < 1
      · exact ⟨[], [], r :: rs, rfl, List.Forall₂.nil, Nat.zero_le _,
          Or.inr (Or.inr ⟨r, rs, rfl, hc⟩)⟩
      · obtain ⟨l, hl⟩ := h r (List.mem_cons_self _ _)
        obtain ⟨ls, done, rest, hsplit, hdone, hk, hstop⟩ :=
          ih m (fun r' hr' => h r' (List.mem_cons_of_mem _ hr'))
        refine ⟨l :: ls, r :: done, rest, by rw [hsplit]; rfl,
          List.Forall₂.cons ⟨by omega, hl⟩ hdone, by simp only [List.length_cons]; omega, ?_⟩
        rcases hstop with h1 | h1 | h1
        · exact Or.inl (by simp only [List.length_cons]; omega)
        · exact Or.inr (Or.inl h1)
        · exact Or.inr (Or.inr h1)

/-- A page read in full is converted scanline by scanline: the scanlines the
loop reads are all the scanlines of the page. -/
theorem run_full (n : Nat) (reads done rest : List pixel_read)
    (hsplit : reads = done ++ rest)
    (hstop : done.length = n ∨ rest = [] ∨ ∃ r tail, rest = r :: tail ∧ r.count < 1)
    (hfull : reads.length = n) (hcount : ∀ r ∈ reads, 1 ≤ r.count) : done = reads := by
  have hlen : reads.length = done.length + rest.length := by
    rw [hsplit, List.length_append]
  rcases hstop with h | h | ⟨r, tail, h, hr⟩
  · have : rest = [] := List.eq_nil_of_length_eq_zero (by omega)
    rw [hsplit, this, List.append_nil]
  · rw [hsplit, h, List.append_nil]
  · have hmem : r ∈ reads := by
      rw [hsplit, h]
      exact List.mem_append_right _ (List.mem_cons_self _ _)
    have := hcount r hmem
    omega

/-- C12. Per-page command sequence: for every job whose scanlines convert,
whether its pages are read in full or cut short, the filter returns and its
output is the concatenation, in page order, of one block per page header read;
the block of a page is exactly the SIZE line with `width_mm` and `height_mm`,
`GAP 2 mm,0`, `DENSITY`, `SPEED`, `DIRECTION 1`, `CLS` (each ended by a
newline), the header `BITMAP 0,0,<width_bytes>,<cupsHeight>,0,` immediately
followed by the packed lines of the scanlines read before the loop ends, with
no separator, a newline, and `PRINT 1`: one block, hence one `PRINT 1`, per
page.  For a page read in full the packed lines are those of scanlines
`0 .. cupsHeight-1`. -/
theorem C12_command_sequence (pages : List raster_page)
    (density speed : Int) (label_width label_height : Dbl)
    (hconv : ∀ p ∈ pages, ∀ r ∈ p.reads, convert_line p.header r.line_buffer ≠ none) :
    (∃ (lines : List (List (List Nat))) (s : Streams),
      List.Forall₂ (fun p ls => ∃ done rest, p.reads = done ++ rest ∧
        List.Forall₂
          (fun rd l => 1 ≤ rd.count ∧ convert_line p.header rd.line_buffer = some l)
          done ls ∧
        done.length ≤ p.header.cupsHeight ∧
        (done.length = p.header.cupsHeight ∨ rest = [] ∨
          ∃ r tail, rest = r :: tail ∧ r.count < 1)) pages lines ∧
      List.Forall₂ (fun p ls => p.reads.length = p.header.cupsHeight →
        (∀ r ∈ p.reads, 1 ≤ r.count) →
        List.Forall₂
          (fun rd l => 1 ≤ rd.count ∧ convert_line p.header rd.line_buffer = some l)
          p.reads ls) pages lines ∧
      convert_raster_to_tspl pages density speed label_width label_height = some s ∧
      s.output = (List.zipWith (fun p ls =>
        spec_page_output (fmt_f1 (resolve_width_mm p.header label_width))
          (fmt_f1 (resolve_height_mm p.header label_height)) density speed
          (width_bytes p.header) p.header.cupsHeight ls) pages lines).flatten ∧
      (List.zipWith (fun p ls =>
        spec_page_output (fmt_f1 (resolve_width_mm p.header label_width))
          (fmt_f1 (resolve_height_mm p.header label_height)) density speed
          (width_bytes p.header) p.header.cupsHeight ls) pages lines).length = pages.length) ∧
    (∀ (p : raster_page) (ls : List (List Nat)) (page : Int),
      p.reads.length = p.header.cupsHeight →
      List.Forall₂
        (fun rd l => 1 ≤ rd.count ∧ convert_line p.header rd.line_buffer = some l)
        p.reads ls →
      ∃ s, convert_page p page density speed label_width label_height = some s ∧
        s.output = spec_page_output (fmt_f1 (resolve_width_mm p.header label_width))
          (fmt_f1 (resolve_height_mm p.header label_height)) density speed
          (width_bytes p.header) p.header.cupsHeight ls) := by
  refine ⟨?_, ?_⟩
  · have hlines : ∃ lines : List (List (List Nat)),
        List.Forall₂ (fun p ls => ∃ done rest, p.reads = done ++ rest ∧
          List.Forall₂
            (fun rd l => 1 ≤ rd.count ∧ convert_line p.header rd.line_buffer = some l)
            done ls ∧
          done.length ≤ p.header.cupsHeight ∧
          (done.length = p.header.cupsHeight ∨ rest = [] ∨
            ∃ r tail, rest = r :: tail ∧ r.count < 1)) pages lines := by
      clear density speed label_width label_height
      induction pages with
      | nil => exact ⟨[], List.Forall₂.nil⟩
      | cons p ps ih =>
        obtain ⟨lines, hl⟩ := ih (fun q hq => hconv q (List.mem_cons_of_mem _ hq))
        obtain ⟨ls, done, rest, h⟩ := scanline_split p.header p.reads p.header.cupsHeight
          (fun r hr => Option.ne_none_iff_exists'.mp (hconv p (List.mem_cons_self _ _) r hr))
        exact ⟨ls :: lines, List.Forall₂.cons ⟨done, rest, h⟩ hl⟩
    obtain ⟨lines, hl⟩ := hlines
    obtain ⟨s, hs, ho⟩ := page_loop_run density speed label_width label_height pages lines 0 hl
    refine ⟨lines, s, hl, ?_, hs, ho, ?_⟩
    · refine List.Forall₂.imp ?_ hl
      intro p ls hrun hfull hcount
      obtain ⟨done, rest, hsplit, hdone, _, hstop⟩ := hrun
      have := run_full p.header.cupsHeight p.reads done rest hsplit hstop hfull hcount
      rw [← this]
      exact hdone
    · rw [List.length_zipWith, hl.length_eq, Nat.min_self]
  · intro p ls page hfull hreads
    exact convert_page_full p ls page density speed label_width label_height hfull hreads

set_option maxRecDepth 8192 in
/-- C12, at a job of two pages: a full page of one line and a page of height 2
of which the source delivers one line. -/
theorem C12_command_sequence_witness :
    ∃ s, convert_raster_to_tspl
        [⟨⟨8, 1, (203, 203), 1, 1⟩, [⟨1, [0xA5]⟩]⟩,
         ⟨⟨8, 2, (203, 203), 8, 8⟩, [⟨8, [0, 255, 0, 255, 0, 255, 0, 255]⟩]⟩] 8 4
        (Dbl.fin false 0 0) (Dbl.fin false 50 0) = some s ∧
      s.output = txt ("SIZE 1.0 mm,50.0 mm\nGAP 2 mm,0\nDENSITY 8\nSPEED 4\nDIRECTION 1\n" ++
          "CLS\nBITMAP 0,0,1,1,0,") ++ [0xA5] ++ txt "\nPRINT 1\n" ++
        txt ("SIZE 1.0 mm,50.0 mm\nGAP 2 mm,0\nDENSITY 8\nSPEED 4\nDIRECTION 1\n" ++
          "CLS\nBITMAP 0,0,1,2,0,") ++ [0xAA] ++ txt "\nPRINT 1\n" :=
  let ⟨_, s, _, _, h, _, _⟩ := (C12_command_sequence
    [⟨⟨8, 1, (203, 203), 1, 1⟩, [⟨1, [0xA5]⟩]⟩,
     ⟨⟨8, 2, (203, 203), 8, 8⟩, [⟨8, [0, 255, 0, 255, 0, 255, 0, 255]⟩]⟩] 8 4
    (Dbl.fin false 0 0) (Dbl.fin false 50 0) (by decide)).1
  ⟨s, h, by
    have hv : (convert_raster_to_tspl
        [⟨⟨8, 1, (203, 203), 1, 1⟩, [⟨1, [0xA5]⟩]⟩,
         ⟨⟨8, 2, (203, 203), 8, 8⟩, [⟨8, [0, 255, 0, 255, 0, 255, 0, 255]⟩]⟩] 8 4
        (Dbl.fin false 0 0) (Dbl.fin false 50 0)).map Streams.output
        = some (txt ("SIZE 1.0 mm,50.0 mm\nGAP 2 mm,0\nDENSITY 8\nSPEED 4\nDIRECTION 1\n" ++
            "CLS\nBITMAP 0,0,1,1,0,") ++ [0xA5] ++ txt "\nPRINT 1\n" ++
          txt ("SIZE 1.0 mm,50.0 mm\nGAP 2 mm,0\nDENSITY 8\nSPEED 4\nDIRECTION 1\n" ++
            "CLS\nBITMAP 0,0,1,2,0,") ++ [0xAA] ++ txt "\nPRINT 1\n") := by
      decide
    rw [h] at hv
    exact Option.some.inj hv⟩

/-! ### Guards and wrap-around -/

/-- The 24-bit branch never reads outside the scanline buffer when
`idx * 3 + 2` does not wrap. -/
theorem decode_pixel_rgb_defined (header : cups_page_header2_t) (line_buffer : List Nat)
    (idx : Nat) (hbpp : header.cupsBitsPerPixel = 24)
    (hlen : header.cupsBytesPerLine ≤ line_buffer.length)
    (hwrap : idx * 3 + 2 < UINT_MOD) :
    ∃ b, decode_pixel header line_buffer idx = some b := by
  by_cases hin : idx * 3 + 2 < header.cupsBytesPerLine
  · have h0 : idx * 3 % UINT_MOD = idx * 3 := Nat.mod_eq_of_lt (by omega)
    have h1 : (idx * 3 + 1) % UINT_MOD = idx * 3 + 1 := Nat.mod_eq_of_lt (by omega)
    have h2 : (idx * 3 + 2) % UINT_MOD = idx * 3 + 2 := Nat.mod_eq_of_lt (by omega)
    have l0 : idx * 3 < line_buffer.length := by omega
    have l1 : idx * 3 + 1 < line_buffer.length := by omega
    have l2 : idx * 3 + 2 < line_buffer.length := by omega
    unfold decode_pixel
    simp only [hbpp, h0, h1, h2, hin, List.getElem?_eq_getElem l0, List.getElem?_eq_getElem l1,
      List.getElem?_eq_getElem l2]
    simp
  · exact ⟨false, decode_pixel_rgb_guard header line_buffer idx hbpp (by omega) hwrap⟩

/-- The generic branch always yields a decision: every read is guarded by the
loop condition. -/
theorem decode_pixel_generic_defined (header : cups_page_header2_t) (line_buffer : List Nat)
    (idx : Nat) (h1 : header.cupsBitsPerPixel ≠ 1) (h8 : header.cupsBitsPerPixel ≠ 8)
    (h24 : header.cupsBitsPerPixel ≠ 24)
    (hlen : header.cupsBytesPerLine ≤ line_buffer.length) :
    ∃ b, decode_pixel header line_buffer idx = some b := by
  rw [decode_pixel_generic header line_buffer idx h1 h8 h24]
  by_cases hN : header.cupsBitsPerPixel / 8 > 0
  · obtain ⟨s, hs⟩ := sum_loop_defined header line_buffer
      (idx * (header.cupsBitsPerPixel / 8) % UINT_MOD) (header.cupsBitsPerPixel / 8) hlen
      (header.cupsBitsPerPixel / 8) 0 0
    rw [if_pos hN, hs]
    exact ⟨_, rfl⟩
  · rw [if_neg hN]
    exact ⟨_, rfl⟩

/-- A generic pixel whose offset lies at or beyond `cupsBytesPerLine` sums no
byte: the average is 0 and the decision is ink. -/
theorem decode_pixel_generic_beyond (header : cups_page_header2_t) (line_buffer : List Nat)
    (idx : Nat) (h1 : header.cupsBitsPerPixel ≠ 1) (h8 : header.cupsBitsPerPixel ≠ 8)
    (h24 : header.cupsBitsPerPixel ≠ 24) (hN : 1 ≤ header.cupsBitsPerPixel / 8)
    (hout : header.cupsBytesPerLine ≤ idx * (header.cupsBitsPerPixel / 8) % UINT_MOD) :
    decode_pixel header line_buffer idx = some true := by
  have hpos : header.cupsBitsPerPixel / 8 > 0 := hN
  rw [decode_pixel_generic header line_buffer idx h1 h8 h24, if_pos hpos]
  obtain ⟨n, hn⟩ : ∃ n, header.cupsBitsPerPixel / 8 = n + 1 :=
    ⟨header.cupsBitsPerPixel / 8 - 1, by omega⟩
  have hM : 0 < UINT_MOD := by unfold UINT_MOD; omega
  have hmod : (idx * (header.cupsBitsPerPixel / 8) % UINT_MOD + 0) % UINT_MOD
      = idx * (header.cupsBitsPerPixel / 8) % UINT_MOD := by
    rw [Nat.add_zero, Nat.mod_mod]
  have hs : sum_loop header line_buffer (idx * (header.cupsBitsPerPixel / 8) % UINT_MOD)
      (header.cupsBitsPerPixel / 8) (header.cupsBitsPerPixel / 8) 0 0 = some 0 := by
    have hc : ¬ (0 < header.cupsBitsPerPixel / 8 ∧
        (idx * (header.cupsBitsPerPixel / 8) % UINT_MOD + 0) % UINT_MOD
          < header.cupsBytesPerLine) := by
      rw [hmod]; omega
    conv_lhs => arg 5; rw [hn]
    rw [sum_loop, if_neg hc]
  rw [hs]
  simp

/-- What the two guarded branches do on a buffer of at least
`cupsBytesPerLine` bytes.  The 24-bit branch (for `idx * 3 + 2` below `2^32`)
never reads outside the buffer, and a pixel whose 3-byte read would exceed
`cupsBytesPerLine` is decoded as no ink.  The generic branch never reads
outside the buffer either, but a pixel with offset `idx * N ≥ cupsBytesPerLine`
(below `2^32`), none of whose bytes are in bounds, has sum 0 and comes out as
ink; with `N = 0` the decision is no ink. -/
theorem decode_pixel_guarded (header : cups_page_header2_t) (line_buffer : List Nat)
    (idx : Nat) (hlen : header.cupsBytesPerLine ≤ line_buffer.length) :
    (header.cupsBitsPerPixel = 24 → idx * 3 + 2 < UINT_MOD →
      (∃ b, decode_pixel header line_buffer idx = some b) ∧
      (header.cupsBytesPerLine ≤ idx * 3 + 2 →
        decode_pixel header line_buffer idx = some false)) ∧
    (header.cupsBitsPerPixel ≠ 1 → header.cupsBitsPerPixel ≠ 8 →
      header.cupsBitsPerPixel ≠ 24 →
      (∃ b, decode_pixel header line_buffer idx = some b) ∧
      (1 ≤ header.cupsBitsPerPixel / 8 →
        idx * (header.cupsBitsPerPixel / 8) < UINT_MOD →
        header.cupsBytesPerLine ≤ idx * (header.cupsBitsPerPixel / 8) →
        decode_pixel header line_buffer idx = some true) ∧
      (header.cupsBitsPerPixel / 8 = 0 →
        decode_pixel header line_buffer idx = some false)) := by
  refine ⟨?_, ?_⟩
  · intro hbpp hwrap
    exact ⟨decode_pixel_rgb_defined header line_buffer idx hbpp hlen hwrap,
      fun hout => decode_pixel_rgb_guard header line_buffer idx hbpp hout hwrap⟩
  · intro h1 h8 h24
    refine ⟨?_, ?_, ?_⟩
    · exact decode_pixel_generic_defined header line_buffer idx h1 h8 h24 hlen
    · intro hN hoff hout
      exact decode_pixel_generic_beyond header line_buffer idx h1 h8 h24 hN
        (by rw [Nat.mod_eq_of_lt hoff]; exact hout)
    · intro hN
      rw [decode_pixel_generic header line_buffer idx h1 h8 h24, if_neg (by omega)]

/-- C14 (defect of the code). A 16-bit page with a 2-byte line of white bytes:
pixel 1 has offset 2, so none of its bytes is in bounds, and the generic branch
decodes it as ink (sum 0, average 0, below 128), so that the packed line of the
white scanline has the bit of pixel 1 set.  A 24-bit pixel beyond the line is
no ink, and so is the white 16-bit pixel 0 inside the line. -/
theorem C14_generic_out_of_bounds_is_ink :
    decode_pixel ⟨2, 1, (203, 203), 16, 2⟩ [255, 255] 1 = some true ∧
    ¬ (decode_pixel ⟨2, 1, (203, 203), 16, 2⟩ [255, 255] 1 = some false) ∧
    decode_pixel ⟨2, 1, (203, 203), 16, 2⟩ [255, 255] 0 = some false ∧
    convert_line ⟨2, 1, (203, 203), 16, 2⟩ [255, 255] = some [0x40] ∧
    decode_pixel ⟨2, 1, (203, 203), 24, 3⟩ [255, 255, 255] 1 = some false ∧
    decode_pixel ⟨2, 1, (203, 203), 24, 2⟩ [0, 0] 0 = some false := by
  decide

/-- C15 (defect of the code). For `cupsWidth = 4294967295` the sum
`cupsWidth + 7` wraps to 6, so `width_bytes` is 0 while `ceil(cupsWidth / 8)`
is 536870912: the BITMAP header declares a width of 0 bytes, `bitmap_line` has
no byte, and for any scanline whose first pixel is ink (first byte `0x80`) the
write of that pixel falls outside `bitmap_line`. -/
theorem C15_width_bytes_wraps :
    width_bytes ⟨4294967295, 1, (203, 203), 1, 536870912⟩ = 0 ∧
    (4294967295 + 7) / 8 = 536870912 ∧
    (output_bitmap_data ⟨4294967295, 1, (203, 203), 1, 536870912⟩ []).map
        (fun r => r.1.output) = some (txt "BITMAP 0,0,0,1,0,\n") ∧
    (∀ rest : List Nat,
      convert_line ⟨4294967295, 1, (203, 203), 1, 536870912⟩ (0x80 :: rest) = none) := by
  refine ⟨by decide, by decide, by decide, ?_⟩
  intro rest
  have hw : width_bytes ⟨4294967295, 1, (203, 203), 1, 536870912⟩ = 0 := by decide
  have hn : (4294967295 : Nat) = 4294967294 + 1 := by norm_num
  have hd : decode_pixel ⟨4294967295, 1, (203, 203), 1, 536870912⟩ (0x80 :: rest) 0
      = some true := by
    simp [decode_pixel]
  unfold convert_line pack_line
  rw [hw]
  show pixel_loop _ 4294967295 0 (List.replicate 0 0) = none
  rw [hn, pixel_loop]
  simp [pack_step, hd, set_bit]

/-! ### Gray pixels -/

/-- A generic pixel whose `N` bytes are all in bounds and all equal to `v`:
the decision tests `N * v`, reduced modulo `2^32`, divided by `N`. -/
theorem decode_pixel_generic_uniform (header : cups_page_header2_t) (line_buffer : List Nat)
    (idx v : Nat) (h1 : header.cupsBitsPerPixel ≠ 1) (h8 : header.cupsBitsPerPixel ≠ 8)
    (h24 : header.cupsBitsPerPixel ≠ 24) (hN : 1 ≤ header.cupsBitsPerPixel / 8)
    (hlen : line_buffer.length = header.cupsBytesPerLine)
    (hbpl : header.cupsBytesPerLine < UINT_MOD)
    (hall : ∀ i, i < header.cupsBitsPerPixel / 8 →
      line_buffer[idx * (header.cupsBitsPerPixel / 8) + i]? = some v) :
    decode_pixel header line_buffer idx
      = some (decide (header.cupsBitsPerPixel / 8 * v % UINT_MOD
          / (header.cupsBitsPerPixel / 8) < 128)) := by
  have hlast := hall (header.cupsBitsPerPixel / 8 - 1) (by omega)
  have hin : idx * (header.cupsBitsPerPixel / 8) + (header.cupsBitsPerPixel / 8 - 1)
      < line_buffer.length := by
    by_contra hc
    rw [List.getElem?_eq_none (by omega)] at hlast
    cases hlast
  have hoff : idx * (header.cupsBitsPerPixel / 8) % UINT_MOD
      = idx * (header.cupsBitsPerPixel / 8) := Nat.mod_eq_of_lt (by omega)
  have hrep : (line_buffer.drop (idx * (header.cupsBitsPerPixel / 8))).take
      (header.cupsBitsPerPixel / 8) = List.replicate (header.cupsBitsPerPixel / 8) v := by
    apply List.ext_getElem?
    intro i
    rw [List.getElem?_take, List.getElem?_replicate]
    split
    · rw [List.getElem?_drop]; exact hall i ‹_›
    · rfl
  rw [decode_pixel_generic_sum header line_buffer idx h1 h8 h24 hN hlen hbpl, hoff, hrep,
    List.sum_replicate, smul_eq_mul]

/-- C19 (counterexample). A generic pixel of `N = 16843010` bytes, all in
bounds and all equal to 255: the 32-bit sum `255 * N = 2^32 + 254` wraps to
254, the average is 0 and the pixel is ink, while an 8-bit pixel of value 255
is no ink. -/
theorem C19_gray_consistency_counterexample :
    decode_pixel ⟨1, 1, (203, 203), 134744080, 16843010⟩ (List.replicate 16843010 255) 0
      = some true ∧
    decode_pixel ⟨1, 1, (203, 203), 8, 1⟩ [255] 0 = some false := by
  refine ⟨?_, by decide⟩
  have h := decode_pixel_generic_uniform ⟨1, 1, (203, 203), 134744080, 16843010⟩
    (List.replicate 16843010 255) 0 255 (by decide) (by decide) (by decide) (by decide)
    (List.length_replicate _ _) (by decide)
    (fun i hi => by
      have hi' : 0 * 16843010 + i < 16843010 := by
        have : i < 16843010 := hi
        omega
      rw [List.getElem?_replicate]
      exact if_pos hi')
  rw [h]
  decide

/-- C19 (as amended). Gray consistency between formats: for every byte value
`v`, an 8-bit pixel of value `v`, a 24-bit pixel with `R = G = B = v` inside
the line, and an in-bounds generic `N`-byte pixel whose bytes all equal `v`,
with `255 * N < 2^32` so that the 32-bit sum cannot wrap, all get the decision
`v < 128`; the integer luminance of `(v, v, v)` is exactly `v`. -/
theorem C19_gray_consistency (v : Nat) (hv : v < 256) :
    (v * 299 + v * 587 + v * 114) / 1000 = v ∧
    (∀ (header : cups_page_header2_t) (line_buffer : List Nat) (idx : Nat),
      header.cupsBitsPerPixel = 8 → line_buffer[idx]? = some v →
      decode_pixel header line_buffer idx = some (decide (v < 128))) ∧
    (∀ (header : cups_page_header2_t) (line_buffer : List Nat) (idx : Nat),
      header.cupsBitsPerPixel = 24 → idx * 3 + 2 < header.cupsBytesPerLine →
      header.cupsBytesPerLine < UINT_MOD →
      line_buffer[idx * 3]? = some v → line_buffer[idx * 3 + 1]? = some v →
      line_buffer[idx * 3 + 2]? = some v →
      decode_pixel header line_buffer idx = some (decide (v < 128))) ∧
    (∀ (header : cups_page_header2_t) (line_buffer : List Nat) (idx : Nat),
      header.cupsBitsPerPixel ≠ 1 → header.cupsBitsPerPixel ≠ 8 →
      header.cupsBitsPerPixel ≠ 24 → 1 ≤ header.cupsBitsPerPixel / 8 →
      255 * (header.cupsBitsPerPixel / 8) < UINT_MOD →
      line_buffer.length = header.cupsBytesPerLine → header.cupsBytesPerLine < UINT_MOD →
      (∀ i, i < header.cupsBitsPerPixel / 8 →
        line_buffer[idx * (header.cupsBitsPerPixel / 8) + i]? = some v) →
      decode_pixel header line_buffer idx = some (decide (v < 128))) := by
  have hlum : (v * 299 + v * 587 + v * 114) / 1000 = v := by omega
  refine ⟨hlum, ?_, ?_, ?_⟩
  · intro header line_buffer idx hbpp hb
    simp [decode_pixel, hbpp, hb]
  · intro header line_buffer idx hbpp hin hbpl hr hg hb
    rw [decode_pixel_rgb_in_bounds header line_buffer idx v v v hbpp hin hbpl hr hg hb hv hv hv,
      hlum]
  · intro header line_buffer idx h1 h8 h24 hN hsmall hlen hbpl hall
    rw [decode_pixel_generic_uniform header line_buffer idx v h1 h8 h24 hN hlen hbpl hall]
    have hle : header.cupsBitsPerPixel / 8 * v ≤ header.cupsBitsPerPixel / 8 * 255 :=
      Nat.mul_le_mul_left _ (by omega)
    rw [Nat.mod_eq_of_lt (by omega), Nat.mul_div_cancel_left v (by omega)]

/-- C19, at the gray value 127 in the three formats. -/
theorem C19_gray_consistency_witness :
    (127 : Nat) < 256 ∧
    decode_pixel ⟨1, 1, (203, 203), 8, 1⟩ [127] 0 = some (decide (127 < 128)) ∧
    decode_pixel ⟨1, 1, (203, 203), 24, 3⟩ [127, 127, 127] 0 = some (decide (127 < 128)) ∧
    decode_pixel ⟨1, 1, (203, 203), 32, 4⟩ [127, 127, 127, 127] 0
      = some (decide (127 < 128)) :=
  ⟨by decide,
   (C19_gray_consistency 127 (by decide)).2.1 ⟨1, 1, (203, 203), 8, 1⟩ [127] 0 rfl rfl,
   (C19_gray_consistency 127 (by decide)).2.2.1 ⟨1, 1, (203, 203), 24, 3⟩ [127, 127, 127] 0
     rfl (by decide) (by decide) rfl rfl rfl,
   (C19_gray_consistency 127 (by decide)).2.2.2 ⟨1, 1, (203, 203), 32, 4⟩
     [127, 127, 127, 127] 0 (by decide) (by decide) (by decide) (by decide) (by decide) rfl
     (by decide) (by decide)⟩

/-! ### Access bounds under the format invariant -/

/-- The scanline loop returns whenever every scanline it is given converts. -/
theorem scanline_loop_defined (header : cups_page_header2_t) :
    ∀ (ras : List pixel_read),
      (∀ r ∈ ras, ∃ l, convert_line header r.line_buffer = some l) →
      ∀ (n y : Nat), ∃ res, scanline_loop header n y ras = some res := by
  intro ras
  induction ras with
  | nil =>
    intro _ n y
    cases n with
    | zero => exact ⟨_, rfl⟩
    | succ n => exact ⟨_, rfl⟩
  | cons r ras ih =>
    intro h n y
    cases n with
    | zero => exact ⟨_, rfl⟩
    | succ n =>
      obtain ⟨l, hl⟩ := h r (List.mem_cons_self _ _)
      obtain ⟨res, hres⟩ := ih (fun r' hr' => h r' (List.mem_cons_of_mem _ hr')) n (y + 1)
      rw [scanline_loop]
      by_cases hc : r.count < 1
      · rw [if_pos hc]
        exact ⟨_, rfl⟩
      · rw [if_neg hc]
        simp only [hl, hres]
        exact ⟨_, rfl⟩

/-- Under the format invariant, with no 32-bit wrap, every pixel of the line
decodes without a read outside the buffer. -/
theorem decode_pixel_defined_invariant (header : cups_page_header2_t)
    (line_buffer : List Nat)
    (hlen : line_buffer.length = header.cupsBytesPerLine)
    (hinv : (header.cupsWidth * header.cupsBitsPerPixel + 7) / 8 ≤ header.cupsBytesPerLine)
    (hwrap : header.cupsWidth * header.cupsBitsPerPixel < UINT_MOD)
    (x : Nat) (hx : x < header.cupsWidth) :
    ∃ b, decode_pixel header line_buffer x = some b := by
  by_cases h1 : header.cupsBitsPerPixel = 1
  · rw [h1, Nat.mul_one] at hinv
    exact ⟨_, decode_pixel_mono header line_buffer x h1 (by omega)⟩
  by_cases h8 : header.cupsBitsPerPixel = 8
  · rw [h8] at hinv
    have hlt : x < line_buffer.length := by omega
    exact ⟨decide (line_buffer[x] < 128),
      by simp [decode_pixel, h8, List.getElem?_eq_getElem hlt]⟩
  by_cases h24 : header.cupsBitsPerPixel = 24
  · rw [h24] at hwrap hinv
    exact decode_pixel_rgb_defined header line_buffer x h24 (by omega) (by omega)
  · exact decode_pixel_generic_defined header line_buffer x h1 h8 h24 (by omega)

/-- C20. In-bounds access under the format invariant: for a depth of 1, 8, 24
or another multiple of 8, a scanline buffer of `cupsBytesPerLine` bytes with
`cupsBytesPerLine ≥ ceil(cupsWidth * bitsPerPixel / 8)`, and
`cupsWidth * bitsPerPixel` small enough that no 32-bit arithmetic wraps (the
product is below `2^32` and, at depth 1, so is `cupsWidth + 7`; at the other
depths the second follows from the first), for every `x < cupsWidth`: each index read lies below
`cupsBytesPerLine` (`x / 8`; `x`; `x * 3 .. x * 3 + 2`; `x * N + i` for
`i < N`), the 24-bit guard and the generic loop guard hold, so they never
fire, the pixel decodes, and the index `x / 8` written for an ink pixel lies
below `width_bytes`.  Hence every scanline converts and `output_bitmap_data`
returns.  Without the invariant the 8-bit path reads index `x` unguarded: with
a 1-byte line, pixel 1 is read outside the buffer. -/
theorem C20_in_bounds_access (header : cups_page_header2_t) (line_buffer : List Nat)
    (hfmt : header.cupsBitsPerPixel = 1 ∨ header.cupsBitsPerPixel % 8 = 0)
    (hlen : line_buffer.length = header.cupsBytesPerLine)
    (hinv : (header.cupsWidth * header.cupsBitsPerPixel + 7) / 8 ≤ header.cupsBytesPerLine)
    (hwrap : header.cupsWidth * header.cupsBitsPerPixel < UINT_MOD)
    (hround : header.cupsBitsPerPixel = 1 → header.cupsWidth + 7 < UINT_MOD) :
    (∀ x, x < header.cupsWidth →
      (header.cupsBitsPerPixel = 1 → x / 8 < header.cupsBytesPerLine) ∧
      (header.cupsBitsPerPixel = 8 → x < header.cupsBytesPerLine) ∧
      (header.cupsBitsPerPixel = 24 →
        x * 3 % UINT_MOD = x * 3 ∧ (x * 3 % UINT_MOD + 1) % UINT_MOD = x * 3 + 1 ∧
        (x * 3 % UINT_MOD + 2) % UINT_MOD = x * 3 + 2 ∧
        x * 3 + 2 < header.cupsBytesPerLine) ∧
      (header.cupsBitsPerPixel ≠ 1 → header.cupsBitsPerPixel ≠ 8 →
        header.cupsBitsPerPixel ≠ 24 → ∀ i, i < header.cupsBitsPerPixel / 8 →
        (x * (header.cupsBitsPerPixel / 8) % UINT_MOD + i) % UINT_MOD
          = x * (header.cupsBitsPerPixel / 8) + i ∧
        x * (header.cupsBitsPerPixel / 8) + i < header.cupsBytesPerLine) ∧
      (∃ b, decode_pixel header line_buffer x = some b) ∧
      (decode_pixel header line_buffer x = some true → x / 8 < width_bytes header)) ∧
    (∃ packed, convert_line header line_buffer = some packed) ∧
    (∀ reads : List pixel_read,
      (∀ r ∈ reads, r.line_buffer.length = header.cupsBytesPerLine) →
      ∃ res, output_bitmap_data header reads = some res) ∧
    decode_pixel ⟨2, 1, (203, 203), 8, 1⟩ [0] 1 = none := by
  have hM : UINT_MOD = 4294967296 := rfl
  -- a depth of 0 never inks a pixel
  have hzero : header.cupsBitsPerPixel = 0 → ∀ (buf : List Nat) (x : Nat),
      decode_pixel header buf x = some false := by
    intro h0 buf x
    rw [decode_pixel_generic header buf x (by omega) (by omega) (by omega),
      if_neg (by rw [h0]; decide)]
  -- otherwise `cupsWidth + 7` does not wrap
  have hw7 : header.cupsBitsPerPixel ≠ 0 → header.cupsWidth + 7 < UINT_MOD := by
    intro h0
    by_cases h1 : header.cupsBitsPerPixel = 1
    · exact hround h1
    · have : header.cupsWidth * 8 ≤ header.cupsWidth * header.cupsBitsPerPixel :=
        Nat.mul_le_mul_left _ (by omega)
      omega
  have hconv : ∀ buf : List Nat, buf.length = header.cupsBytesPerLine →
      ∃ packed, convert_line header buf = some packed := by
    intro buf hbuf
    by_cases h0 : header.cupsBitsPerPixel = 0
    · refine ⟨List.replicate (width_bytes header) 0, ?_⟩
      unfold convert_line pack_line
      exact pixel_loop_no_ink _ (hzero h0 buf) _ _ _
    · obtain ⟨out, ho, _⟩ := convert_line_spec header buf
        (fun x => (decode_pixel header buf x).getD false) (hw7 h0)
        (fun i hi => by
          obtain ⟨b, hb⟩ := decode_pixel_defined_invariant header buf hbuf hinv hwrap i hi
          simp [hb])
      exact ⟨out, ho⟩
  refine ⟨?_, hconv line_buffer hlen, ?_, by decide⟩
  · intro x hx
    refine ⟨?_, ?_, ?_, ?_, ?_, ?_⟩
    · intro h1
      rw [h1, Nat.mul_one] at hinv
      omega
    · intro h8
      rw [h8] at hinv
      omega
    · intro h24
      rw [h24] at hinv hwrap
      have e0 : x * 3 % UINT_MOD = x * 3 := Nat.mod_eq_of_lt (by omega)
      rw [e0]
      exact ⟨rfl, Nat.mod_eq_of_lt (by omega), Nat.mod_eq_of_lt (by omega), by omega⟩
    · intro h1 h8 h24 i hi
      have hmul : header.cupsBitsPerPixel = 8 * (header.cupsBitsPerPixel / 8) := by omega
      have hprod : header.cupsWidth * header.cupsBitsPerPixel
          = 8 * (header.cupsWidth * (header.cupsBitsPerPixel / 8)) := by
        conv_lhs => rw [hmul]
        ring
      have hstep : x * (header.cupsBitsPerPixel / 8) + header.cupsBitsPerPixel / 8
          ≤ header.cupsWidth * (header.cupsBitsPerPixel / 8) := by
        have : (x + 1) * (header.cupsBitsPerPixel / 8)
            ≤ header.cupsWidth * (header.cupsBitsPerPixel / 8) :=
          Nat.mul_le_mul_right _ hx
        rw [Nat.add_mul, Nat.one_mul] at this
        exact this
      rw [hprod] at hinv hwrap
      have e0 : x * (header.cupsBitsPerPixel / 8) % UINT_MOD
          = x * (header.cupsBitsPerPixel / 8) := Nat.mod_eq_of_lt (by omega)
      rw [e0]
      exact ⟨Nat.mod_eq_of_lt (by omega), by omega⟩
    · exact decode_pixel_defined_invariant header line_buffer hlen hinv hwrap x hx
    · intro hink
      by_cases h0 : header.cupsBitsPerPixel = 0
      · rw [hzero h0 line_buffer x] at hink
        cases hink
      · rw [width_bytes_eq header (hw7 h0)]
        omega
  · intro reads hreads
    obtain ⟨res, hres⟩ := scanline_loop_defined header reads
      (fun r hr => hconv r.line_buffer (hreads r hr)) header.cupsHeight 0
    unfold output_bitmap_data
    rw [hres]
    exact ⟨_, rfl⟩

/-- C20, at a 24-bit page of two pixels with a 6-byte line. -/
theorem C20_in_bounds_access_witness :
    ((2 * 24 + 7) / 8 ≤ 6 ∧ 2 * 24 < UINT_MOD) ∧
    (∃ packed, convert_line ⟨2, 1, (203, 203), 24, 6⟩ [0, 0, 0, 255, 255, 255] = some packed) ∧
    (1 * 3 % UINT_MOD + 2) % UINT_MOD = 1 * 3 + 2 ∧ 1 * 3 + 2 < 6 :=
  ⟨⟨by decide, by decide⟩,
   (C20_in_bounds_access ⟨2, 1, (203, 203), 24, 6⟩ [0, 0, 0, 255, 255, 255]
      (Or.inr (by decide)) rfl (by decide) (by decide) (by decide)).2.1,
   (((C20_in_bounds_access ⟨2, 1, (203, 203), 24, 6⟩ [0, 0, 0, 255, 255, 255]
      (Or.inr (by decide)) rfl (by decide) (by decide) (by decide)).1 1 (by decide)).2.2.1 rfl).2.2.1,
   (((C20_in_bounds_access ⟨2, 1, (203, 203), 24, 6⟩ [0, 0, 0, 255, 255, 255]
      (Or.inr (by decide)) rfl (by decide) (by decide) (by decide)).1 1 (by decide)).2.2.1 rfl).2.2.2⟩

/-! ### The checkerboard of debug_bitmap.c -/

/-- Two bytes with the same eight bits are equal. -/
theorem byte_ext (a b : Nat) (ha : a < 256) (hb : b < 256)
    (h : ∀ j, j < 8 → a.testBit j = b.testBit j) : a = b := by
  apply Nat.eq_of_testBit_eq
  intro i
  by_cases hi : i < 8
  · exact h i hi
  · have h8 : (256 : Nat) ≤ 2 ^ i := by
      calc (256 : Nat) = 2 ^ 8 := by norm_num
        _ ≤ 2 ^ i := Nat.pow_le_pow_right (by norm_num) (by omega)
    rw [Nat.testBit_lt_two_pow (by omega), Nat.testBit_lt_two_pow (by omega)]

/-- Two packed lines of the same length, made of bytes, that agree on every
bit position are equal. -/
theorem packed_ext (p q : List Nat) (hlen : p.length = q.length)
    (hp : ∀ v ∈ p, v < 256) (hq : ∀ v ∈ q, v < 256)
    (h : ∀ x, x < 8 * p.length → line_bit p x = line_bit q x) : p = q := by
  apply List.ext_getElem hlen
  intro k hk1 hk2
  apply byte_ext _ _ (hp _ (List.getElem_mem _)) (hq _ (List.getElem_mem _))
  intro j hj
  have hx := h (8 * k + (7 - j)) (by omega)
  unfold line_bit at hx
  have e1 : (8 * k + (7 - j)) / 8 = k := by omega
  have e2 : 7 - (8 * k + (7 - j)) % 8 = j := by omega
  rw [e1, e2, List.getElem?_eq_getElem hk1, List.getElem?_eq_getElem hk2] at hx
  exact hx

/-- The rows that `main` of debug_bitmap.c builds. -/
theorem checker_lines_eq :
    (List.range 8).map checker_line
      = [some [0x33, 0x33, 0x33], some [0x33, 0x33, 0x33], some [0xCC, 0xCC, 0xCC],
         some [0xCC, 0xCC, 0xCC], some [0x33, 0x33, 0x33], some [0x33, 0x33, 0x33],
         some [0xCC, 0xCC, 0xCC], some [0xCC, 0xCC, 0xCC]] := by
  decide

/-- Bit `x` of row `y` of the checkerboard is set exactly when
`(x / 2 + y / 2) % 2 = 1`. -/
theorem checker_line_bits :
    ∀ y, y < 8 → ∀ x, x < 24 →
      (checker_line y).map (fun row => line_bit row x)
        = some (decide ((x / 2 + y / 2) % 2 = 1)) := by
  decide

/-- A 3-byte scanline whose bits follow the checkerboard rule for row `y` is
the row that debug_bitmap.c builds. -/
theorem checker_line_unique (y : Nat) (hy : y < 8) (buf : List Nat) (hlen : buf.length = 3)
    (hbytes : ∀ v ∈ buf, v < 256)
    (hbits : ∀ x, x < 24 → line_bit buf x = decide ((x / 2 + y / 2) % 2 = 1)) :
    checker_line y = some buf := by
  have hrows := checker_lines_eq
  have hb := checker_line_bits y hy
  have key : ∀ row : List Nat, checker_line y = some row → row.length = 3 →
      (∀ v ∈ row, v < 256) → checker_line y = some buf := by
    intro row hrow hrl hrb
    rw [hrow]
    congr 1
    apply packed_ext row buf (by rw [hrl, hlen]) hrb hbytes
    intro x hx
    have hx24 : x < 24 := by rw [hrl] at hx; omega
    have := hb x hx24
    rw [hrow] at this
    simp only [Option.map_some', Option.some.injEq] at this
    rw [this, hbits x hx24]
  have h33 : ∀ v ∈ ([0x33, 0x33, 0x33] : List Nat), v < 256 := by decide
  have hCC : ∀ v ∈ ([0xCC, 0xCC, 0xCC] : List Nat), v < 256 := by decide
  interval_cases y
  · exact key [0x33, 0x33, 0x33] (by decide) rfl h33
  · exact key [0x33, 0x33, 0x33] (by decide) rfl h33
  · exact key [0xCC, 0xCC, 0xCC] (by decide) rfl hCC
  · exact key [0xCC, 0xCC, 0xCC] (by decide) rfl hCC
  · exact key [0x33, 0x33, 0x33] (by decide) rfl h33
  · exact key [0x33, 0x33, 0x33] (by decide) rfl h33
  · exact key [0xCC, 0xCC, 0xCC] (by decide) rfl hCC
  · exact key [0xCC, 0xCC, 0xCC] (by decide) rfl hCC

/-- The packed form of a row of the checkerboard is the row itself. -/
theorem convert_checker_line (y : Nat) (hy : y < 8) (buf : List Nat)
    (h : checker_line y = some buf) :
    convert_line ⟨24, 8, (203, 203), 1, 3⟩ buf = some buf
      ∧ some buf = ((List.range 8).map checker_line).getD y none := by
  have h33 : convert_line ⟨24, 8, (203, 203), 1, 3⟩ [0x33, 0x33, 0x33]
      = some [0x33, 0x33, 0x33] := by decide
  have hCC : convert_line ⟨24, 8, (203, 203), 1, 3⟩ [0xCC, 0xCC, 0xCC]
      = some [0xCC, 0xCC, 0xCC] := by decide
  have key : ∀ row : List Nat, checker_line y = some row →
      convert_line ⟨24, 8, (203, 203), 1, 3⟩ row = some row →
      some row = ((List.range 8).map checker_line).getD y none →
      convert_line ⟨24, 8, (203, 203), 1, 3⟩ buf = some buf
        ∧ some buf = ((List.range 8).map checker_line).getD y none := by
    intro row hrow hconv hget
    rw [hrow] at h
    cases h
    exact ⟨hconv, hget⟩
  interval_cases y
  · exact key [0x33, 0x33, 0x33] (by decide) h33 (by decide)
  · exact key [0x33, 0x33, 0x33] (by decide) h33 (by decide)
  · exact key [0xCC, 0xCC, 0xCC] (by decide) hCC (by decide)
  · exact key [0xCC, 0xCC, 0xCC] (by decide) hCC (by decide)
  · exact key [0x33, 0x33, 0x33] (by decide) h33 (by decide)
  · exact key [0x33, 0x33, 0x33] (by decide) h33 (by decide)
  · exact key [0xCC, 0xCC, 0xCC] (by decide) hCC (by decide)
  · exact key [0xCC, 0xCC, 0xCC] (by decide) hCC (by decide)

/-- C13. End-to-end checkerboard: for a 24×8-pixel, 1-bit page with 3 bytes per
line, fully read, whose pixel `(x, y)` has source bit 1 exactly when
`(x / 2 + y / 2) % 2 = 1`, `output_bitmap_data` writes the header
`BITMAP 0,0,3,8,0,`, then 24 payload bytes (0x33,0x33,0x33 for scanlines 0, 1,
4, 5 and 0xCC,0xCC,0xCC for scanlines 2, 3, 6, 7), then a newline, and no
message; the scanlines read are the rows that `main` of debug_bitmap.c builds,
the payload is those rows one after the other, and the command debug_bitmap.c
prints is the same one with the payload in hex. -/
theorem C13_checkerboard_end_to_end (reads : List pixel_read)
    (hfull : reads.length = 8)
    (hreads : ∀ y (hy : y < reads.length),
      1 ≤ reads[y].count ∧ reads[y].line_buffer.length = 3 ∧
      (∀ v ∈ reads[y].line_buffer, v < 256) ∧
      ∀ x, x < 24 → line_bit reads[y].line_buffer x = decide ((x / 2 + y / 2) % 2 = 1)) :
    output_bitmap_data ⟨24, 8, (203, 203), 1, 3⟩ reads
      = some (⟨txt "BITMAP 0,0,3,8,0," ++
                [0x33, 0x33, 0x33, 0x33, 0x33, 0x33, 0xCC, 0xCC, 0xCC, 0xCC, 0xCC, 0xCC,
                 0x33, 0x33, 0x33, 0x33, 0x33, 0x33, 0xCC, 0xCC, 0xCC, 0xCC, 0xCC, 0xCC] ++
                txt "\n", []⟩, [])
    ∧ reads.map (fun rd => some rd.line_buffer) = (List.range 8).map checker_line
    ∧ ((List.range 8).map (fun y => (checker_line y).getD [])).flatten
        = [0x33, 0x33, 0x33, 0x33, 0x33, 0x33, 0xCC, 0xCC, 0xCC, 0xCC, 0xCC, 0xCC,
           0x33, 0x33, 0x33, 0x33, 0x33, 0x33, 0xCC, 0xCC, 0xCC, 0xCC, 0xCC, 0xCC]
    ∧ debug_bitmap_command
        = some "BITMAP 0,0,3,8,0,333333333333CCCCCCCCCCCC333333333333CCCCCCCCCCCC\n" := by
  have hrow : ∀ y (hy : y < reads.length),
      1 ≤ reads[y].count ∧
      convert_line ⟨24, 8, (203, 203), 1, 3⟩ reads[y].line_buffer = some reads[y].line_buffer ∧
      some reads[y].line_buffer = ((List.range 8).map checker_line).getD y none := by
    intro y hy
    obtain ⟨hc, hl, hb, hbits⟩ := hreads y hy
    have hu := checker_line_unique y (by omega) _ hl hb hbits
    exact ⟨hc, convert_checker_line y (by omega) _ hu⟩
  have hsrc : reads.map (fun rd => some rd.line_buffer) = (List.range 8).map checker_line := by
    apply List.ext_getElem
    · simp [hfull]
    · intro i h1 h2
      have hi : i < reads.length := by simpa using h1
      have := (hrow i hi).2.2
      rw [List.getD_eq_getElem _ _ h2] at this
      rw [← this]
      simp
  have hbuf : reads.map (fun rd => rd.line_buffer)
      = [[0x33, 0x33, 0x33], [0x33, 0x33, 0x33], [0xCC, 0xCC, 0xCC], [0xCC, 0xCC, 0xCC],
         [0x33, 0x33, 0x33], [0x33, 0x33, 0x33], [0xCC, 0xCC, 0xCC], [0xCC, 0xCC, 0xCC]] := by
    have h2 : (reads.map (fun rd => some rd.line_buffer))
        = (reads.map (fun rd => rd.line_buffer)).map some := by
      simp
    rw [checker_lines_eq, h2] at hsrc
    have hinj : Function.Injective (List.map (some : List Nat → Option (List Nat))) :=
      List.map_injective_iff.mpr (Option.some_injective _)
    exact hinj hsrc
  have hF : List.Forall₂
      (fun rd l => 1 ≤ rd.count ∧ convert_line ⟨24, 8, (203, 203), 1, 3⟩ rd.line_buffer = some l)
      reads (reads.map (fun rd => rd.line_buffer)) := by
    rw [List.forall₂_iff_get]
    refine ⟨by simp, ?_⟩
    intro i h1 h2
    have := hrow i h1
    simp only [List.get_eq_getElem, List.getElem_map]
    exact ⟨this.1, this.2.1⟩
  have hout := output_bitmap_data_full ⟨24, 8, (203, 203), 1, 3⟩ reads _ hF hfull
  rw [hbuf] at hout
  refine ⟨?_, hsrc, by decide, by decide⟩
  rw [hout]
  decide

/-- The page whose scanlines are the rows of debug_bitmap.c satisfies the
hypotheses of C13, and its BITMAP command is the one stated. -/
theorem C13_checkerboard_end_to_end_witness :
    output_bitmap_data ⟨24, 8, (203, 203), 1, 3⟩
        [⟨3, [0x33, 0x33, 0x33]⟩, ⟨3, [0x33, 0x33, 0x33]⟩, ⟨3, [0xCC, 0xCC, 0xCC]⟩,
         ⟨3, [0xCC, 0xCC, 0xCC]⟩, ⟨3, [0x33, 0x33, 0x33]⟩, ⟨3, [0x33, 0x33, 0x33]⟩,
         ⟨3, [0xCC, 0xCC, 0xCC]⟩, ⟨3, [0xCC, 0xCC, 0xCC]⟩]
      = some (⟨txt "BITMAP 0,0,3,8,0," ++
                [0x33, 0x33, 0x33, 0x33, 0x33, 0x33, 0xCC, 0xCC, 0xCC, 0xCC, 0xCC, 0xCC,
                 0x33, 0x33, 0x33, 0x33, 0x33, 0x33, 0xCC, 0xCC, 0xCC, 0xCC, 0xCC, 0xCC] ++
                txt "\n", []⟩, []) :=
  (C13_checkerboard_end_to_end
    [⟨3, [0x33, 0x33, 0x33]⟩, ⟨3, [0x33, 0x33, 0x33]⟩, ⟨3, [0xCC, 0xCC, 0xCC]⟩,
     ⟨3, [0xCC, 0xCC, 0xCC]⟩, ⟨3, [0x33, 0x33, 0x33]⟩, ⟨3, [0x33, 0x33, 0x33]⟩,
     ⟨3, [0xCC, 0xCC, 0xCC]⟩, ⟨3, [0xCC, 0xCC, 0xCC]⟩]
    (by decide) (by decide)).1

end Rastertotspl
